import Mathlib

/-!
Verification of the Request Resilience Layer (response cache, timeout
executor, resilience orchestrator) of the `mcp-anchor` repository.

The TypeScript sources `src/performance/cache.ts`, `src/performance/timeout.ts`
and the performance manager are shallowly embedded: JavaScript strings are
modelled through `List Char` manipulations, the JavaScript `Map` as an
insertion-ordered association list, wall-clock time (`Date.now()`) as an
explicit `Nat` argument, and promises as explicit behaviours (`resolve at t`,
`reject at t`, `never settles`) raced against the timeout timer.
-/

deriving instance DecidableEq for Except

namespace Perf

/-! ### JavaScript string primitives -/

/-- Model of `String.prototype.includes`: substring (infix) test. -/
def jsIncludes (s pat : String) : Bool :=
  decide (pat.data <:+: s.data)

/-- Split a character list at every occurrence of `sep`
(model of `String.prototype.split(sep)` for a single-character separator). -/
def splitOnChar (sep : Char) : List Char → List (List Char)
  | [] => [[]]
  | c :: rest =>
    if c = sep then [] :: splitOnChar sep rest
    else
      match splitOnChar sep rest with
      | [] => [[c]]
      | g :: gs => (c :: g) :: gs

/-- Join character lists with a single-character separator
(model of `Array.prototype.join`). -/
def joinWithChar (sep : Char) : List (List Char) → List Char
  | [] => []
  | [g] => g
  | g :: gs => g ++ sep :: joinWithChar sep gs

/-- Model of `String.prototype.toLowerCase` (per-character lowering). -/
def jsToLower (l : List Char) : List Char := l.map Char.toLower

/-- Collapse every run of `'/'` characters to a single `'/'`
(model of `.replace(/\/+/g, '/')`). -/
def collapseSlashes : List Char → List Char
  | [] => []
  | [c] => [c]
  | a :: b :: rest =>
    if a = '/' ∧ b = '/' then collapseSlashes (b :: rest)
    else a :: collapseSlashes (b :: rest)

/-! ### Decimal rendering of numbers (model of JS number-to-string) -/

/-- Character for a single decimal digit. -/
def digitChar : Nat → Char
  | 0 => '0' | 1 => '1' | 2 => '2' | 3 => '3' | 4 => '4'
  | 5 => '5' | 6 => '6' | 7 => '7' | 8 => '8' | 9 => '9'
  | _ => '*'

/-- Fuel-driven little-endian digit extraction; the fuel makes the recursion
structural, and any fuel above the number itself is enough. -/
def natDigitsRevGo : Nat → Nat → List Char
  | 0, _ => []
  | f + 1, n => if n < 10 then [digitChar n] else digitChar (n % 10) :: natDigitsRevGo f (n / 10)

/-- Little-endian decimal digit characters of `n`. -/
def natDigitsRev (n : Nat) : List Char :=
  natDigitsRevGo (n + 1) n

/-- Decimal string of a natural number (model of JS `${number}` for a
non-negative integer). -/
def natToString (n : Nat) : String :=
  ⟨(natDigitsRev n).reverse⟩

/-- Numeric value of a single digit character. -/
def digitVal (c : Char) : Nat := c.toNat - 48

/-- Value of a little-endian digit-character list. -/
def digitsRevVal : List Char → Nat
  | [] => 0
  | c :: cs => digitVal c + 10 * digitsRevVal cs

/-! ### Association lists (model of the JavaScript `Map` and `URLSearchParams`)

JavaScript `Map` iterates in insertion order; `set` of an existing key
replaces its value in place, `set` of a fresh key appends at the end. -/

/-- Model of `Map.prototype.get` (first entry with the key). -/
def mapFind {κ β : Type _} [DecidableEq κ] (k : κ) : List (κ × β) → Option β
  | [] => none
  | (k', v) :: rest => if k' = k then some v else mapFind k rest

/-- Model of `Map.prototype.set` / `URLSearchParams.set`. -/
def mapSet {κ β : Type _} [DecidableEq κ] (k : κ) (v : β) : List (κ × β) → List (κ × β)
  | [] => [(k, v)]
  | (k', v') :: rest => if k' = k then (k, v) :: rest else (k', v') :: mapSet k v rest

/-- Model of `Map.prototype.delete`. -/
def mapDelete {κ β : Type _} [DecidableEq κ] (k : κ) : List (κ × β) → List (κ × β)
  | [] => []
  | (k', v) :: rest => if k' = k then rest else (k', v) :: mapDelete k rest

/-! ### The application/x-www-form-urlencoded codec (model of `URLSearchParams`)

The codec is modelled per code point; for the ASCII inputs exercised here this
agrees with the byte-level WHATWG algorithm. -/

/-- Characters serialized verbatim by the form-urlencoded encoder. -/
def isUnreservedFormChar (c : Char) : Bool :=
  c.isAlphanum || c == '*' || c == '-' || c == '.' || c == '_'

/-- Value of a hexadecimal digit character, if it is one. -/
def hexDigitVal (c : Char) : Option Nat :=
  if '0' ≤ c ∧ c ≤ '9' then some (c.toNat - 48)
  else if 'A' ≤ c ∧ c ≤ 'F' then some (c.toNat - 55)
  else if 'a' ≤ c ∧ c ≤ 'f' then some (c.toNat - 87)
  else none

/-- Uppercase hexadecimal digit character. -/
def upperHexChar : Nat → Char
  | 0 => '0' | 1 => '1' | 2 => '2' | 3 => '3' | 4 => '4'
  | 5 => '5' | 6 => '6' | 7 => '7' | 8 => '8' | 9 => '9'
  | 10 => 'A' | 11 => 'B' | 12 => 'C' | 13 => 'D' | 14 => 'E' | 15 => 'F'
  | _ => '*'

/-- Form-urlencoded percent-decoding (`+` to space, `%XY` to the coded
character, anything else verbatim). -/
def formDecodeChars : List Char → List Char
  | [] => []
  | '+' :: rest => ' ' :: formDecodeChars rest
  | '%' :: h1 :: h2 :: rest =>
    match hexDigitVal h1, hexDigitVal h2 with
    | some a, some b => Char.ofNat (16 * a + b) :: formDecodeChars rest
    | _, _ => '%' :: formDecodeChars (h1 :: h2 :: rest)
  | c :: rest => c :: formDecodeChars rest

/-- Form-urlencoded encoding of one character. -/
def formEncodeChar (c : Char) : List Char :=
  if isUnreservedFormChar c then [c]
  else if c = ' ' then ['+']
  else ['%', upperHexChar (c.toNat / 16 % 16), upperHexChar (c.toNat % 16)]

/-- Form-urlencoded encoding of a character list. -/
def formEncodeChars : List Char → List Char
  | [] => []
  | c :: rest => formEncodeChar c ++ formEncodeChars rest

/-- Splitting of one `name=value` segment at its first `=` (no `=` means an
empty value), then decoding of both sides. -/
def parsePairSeg (seg : List Char) : List Char × List Char :=
  match splitOnChar '=' seg with
  | [] => ([], [])
  | name :: rest => (formDecodeChars name, formDecodeChars (joinWithChar '=' rest))

/-- Model of `new URLSearchParams(init)` for a string `init`: strip one
leading `?`, split on `&`, drop empty segments, and parse each segment. -/
def parseQueryPairs (s : String) : List (List Char × List Char) :=
  let l := match s.data with
           | '?' :: rest => rest
           | l => l
  ((splitOnChar '&' l).filter (· ≠ [])).map parsePairSeg

/-- Model of `URLSearchParams.get` composed with `|| ''`: first value stored
under the key, or the empty string. -/
def getFirstValue (k : List Char) (pairs : List (List Char × List Char)) : List Char :=
  ((pairs.find? fun p => p.1 = k).map Prod.snd).getD []

/-- The sort-and-reinsert loop of `normalizeParams`: keys sorted
lexicographically (the JS default string sort), each `set` into a fresh
`URLSearchParams` with the first value held by the original parameters. -/
def sortQueryPairs (pairs : List (List Char × List Char)) : List (List Char × List Char) :=
  (List.insertionSort (· ≤ ·) (pairs.map Prod.fst)).foldl
    (fun acc k => mapSet k (getFirstValue k pairs) acc) []

/-- Model of `URLSearchParams.toString`. -/
def serializeQueryPairs (pairs : List (List Char × List Char)) : String :=
  ⟨joinWithChar '&'
    (pairs.map fun p => formEncodeChars p.1 ++ '=' :: formEncodeChars p.2)⟩

/-! ### `ResponseCache` key canonicalization (`src/performance/cache.ts`) -/

/-- Model of `ResponseCache.normalizeRoute`: text before the first `?`,
lower-cased, runs of slashes collapsed. -/
def normalizeRoute (route : String) : String :=
  ⟨collapseSlashes (jsToLower (match splitOnChar '?' route.data with
    | [] => []
    | g :: _ => g))⟩

/-- Model of `ResponseCache.normalizeParams`. The source wraps the parse in
`try/catch` with the raw string as fallback; `URLSearchParams` construction
from a string never throws, so the parse here is total and the fallback
branch is unreachable. -/
def normalizeParams (params : String) : String :=
  if params = "" then ""
  else serializeQueryPairs (sortQueryPairs (parseQueryPairs params))

/-- Composite identity of a cacheable request (`CacheKey` of
`src/performance/types.ts`, numeric seed modelled as a natural number). -/
structure CacheKey where
  route : String
  params : String
  scenario : String
  seed : Nat
  deriving DecidableEq, Repr

/-- Scenario-name defaulting inside `generateKey`
(`cacheKey.scenario || 'baseline'`; the empty string is the falsy string). -/
def defaultScenario (scenario : String) : String :=
  if scenario = "" then "baseline" else scenario

/-- Seed defaulting inside `generateKey` (`cacheKey.seed || 42`; zero is the
falsy number). -/
def defaultSeed (seed : Nat) : Nat :=
  if seed = 0 then 42 else seed

/-- Model of `ResponseCache.generateKey`. -/
def generateKey (ck : CacheKey) : String :=
  normalizeRoute ck.route ++ ":" ++ normalizeParams ck.params ++ ":" ++
    defaultScenario ck.scenario ++ ":" ++ natToString (defaultSeed ck.seed)

/-- A query string assembled from explicit `name=value` pairs joined with
`&`: the concrete syntax over which the permutation property quantifies. -/
def rawQueryOfPairs (ps : List (List Char × List Char)) : List Char :=
  joinWithChar '&' (ps.map fun p => p.1 ++ '=' :: p.2)

/-- Characters that pass through query parsing and decoding untouched:
not a separator (`&`, `=`), not part of an escape (`%`, `+`), and not the
stripped leading `?`. -/
def isPlainQueryChar (c : Char) : Bool :=
  !(c == '&' || c == '=' || c == '%' || c == '+' || c == '?')

/-! ### `ResponseCache` state (`src/performance/cache.ts`)

`Date.now()` is passed explicitly as `now`; the periodic cleanup timer is an
external trigger and appears as the explicit `cleanup` operation. -/

/-- Model of `CacheEntry` (`src/performance/types.ts`); the opaque `data`
payload is a type parameter. -/
structure CacheEntry (α : Type) where
  data : α
  timestamp : Nat
  ttl : Nat
  route : String
  params : String
  scenario : String
  seed : Nat
  hitCount : Nat
  lastAccess : Nat
  deriving DecidableEq, Repr

/-- Model of `PerformanceMetrics` (`src/performance/types.ts`); JS numbers
that stay integral are `Nat`, the average and the derived rates are `ℚ`. -/
structure PerformanceMetrics where
  cacheHits : Nat
  cacheMisses : Nat
  timeoutHits : Nat
  passthroughCount : Nat
  averageResponseTime : ℚ
  totalRequests : Nat
  cacheHitRate : ℚ
  timeoutRate : ℚ
  deriving DecidableEq, Repr

/-- Fresh metrics record as built by the `ResponseCache` constructor. -/
def initMetrics : PerformanceMetrics :=
  ⟨0, 0, 0, 0, 0, 0, 0, 0⟩

/-- Model of the `ResponseCache` instance state: the `Map` in insertion
order, the configured bounds, and the metrics record. -/
structure ResponseCache (α : Type) where
  entries : List (String × CacheEntry α)
  maxEntries : Nat
  defaultTtlMs : Nat
  metrics : PerformanceMetrics
  deriving DecidableEq, Repr

namespace ResponseCache

/-- TTL resolution in `set` (`ttlMs || this.defaultTtlMs`; an absent or zero
`ttlMs` falls back to the default). -/
def resolveTtl (ttlMs : Option Nat) (defaultTtlMs : Nat) : Nat :=
  match ttlMs with
  | some t => if t = 0 then defaultTtlMs else t
  | none => defaultTtlMs

/-- Model of `ResponseCache.get`: lazily expires, counts a hit or a miss,
refreshes recency and moves a surviving entry to the end of the `Map`. -/
def get (ck : CacheKey) (now : Nat) (st : ResponseCache α) :
    Option α × ResponseCache α :=
  let key := generateKey ck
  match mapFind key st.entries with
  | none =>
    (none, { st with metrics := { st.metrics with cacheMisses := st.metrics.cacheMisses + 1 } })
  | some entry =>
    if now - entry.timestamp > entry.ttl then
      (none, { st with
        entries := mapDelete key st.entries,
        metrics := { st.metrics with cacheMisses := st.metrics.cacheMisses + 1 } })
    else
      let entry' := { entry with hitCount := entry.hitCount + 1, lastAccess := now }
      (some entry'.data, { st with
        entries := mapSet key entry' (mapDelete key st.entries),
        metrics := { st.metrics with cacheHits := st.metrics.cacheHits + 1 } })

/-- The scan of `ResponseCache.evictLRU`: fold over the entries keeping the
first key whose `lastAccess` is strictly below the running minimum, which
starts at `Date.now()`. -/
def evictScan (acc : Option String × Nat) :
    List (String × CacheEntry α) → Option String × Nat
  | [] => acc
  | (k, e) :: rest =>
    evictScan (if e.lastAccess < acc.2 then (some k, e.lastAccess) else acc) rest

/-- Model of `ResponseCache.evictLRU`. -/
def evictLRU (now : Nat) (st : ResponseCache α) : ResponseCache α :=
  match (evictScan (none, now) st.entries).1 with
  | some oldestKey => { st with entries := mapDelete oldestKey st.entries }
  | none => st

/-- Model of `ResponseCache.set`: build the entry, evict when the store is
already at or above capacity, then insert under the canonical key. -/
def set (ck : CacheKey) (data : α) (ttlMs : Option Nat) (now : Nat)
    (st : ResponseCache α) : ResponseCache α :=
  let key := generateKey ck
  let entry : CacheEntry α :=
    { data := data, timestamp := now, ttl := resolveTtl ttlMs st.defaultTtlMs,
      route := ck.route, params := ck.params, scenario := ck.scenario,
      seed := ck.seed, hitCount := 0, lastAccess := now }
  let st1 := if st.entries.length ≥ st.maxEntries then evictLRU now st else st
  { st1 with entries := mapSet key entry st1.entries }

/-- Model of `ResponseCache.getStats` (metrics spread plus derived totals,
rates and sizes). -/
structure Stats where
  cacheHits : Nat
  cacheMisses : Nat
  timeoutHits : Nat
  passthroughCount : Nat
  averageResponseTime : ℚ
  totalRequests : Nat
  cacheHitRate : ℚ
  timeoutRate : ℚ
  cacheSize : Nat
  maxEntries : Nat
  deriving DecidableEq, Repr

/-- Model of `ResponseCache.getStats`. -/
def getStats (st : ResponseCache α) : Stats :=
  let totalRequests := st.metrics.cacheHits + st.metrics.cacheMisses
  { cacheHits := st.metrics.cacheHits
    cacheMisses := st.metrics.cacheMisses
    timeoutHits := st.metrics.timeoutHits
    passthroughCount := st.metrics.passthroughCount
    averageResponseTime := st.metrics.averageResponseTime
    totalRequests := totalRequests
    cacheHitRate := if totalRequests > 0 then (st.metrics.cacheHits : ℚ) / totalRequests else 0
    timeoutRate := if totalRequests > 0 then (st.metrics.timeoutHits : ℚ) / totalRequests else 0
    cacheSize := st.entries.length
    maxEntries := st.maxEntries }

/-- Model of the only use of `ResponseCache.updateMetrics`: the partial
update `updateMetrics({ timeoutHits: n })`. -/
def updateMetricsTimeoutHits (n : Nat) (st : ResponseCache α) : ResponseCache α :=
  { st with metrics := { st.metrics with timeoutHits := n } }

/-- Model of `ResponseCache.cleanup` (eager sweep of expired entries). -/
def cleanup (now : Nat) (st : ResponseCache α) : ResponseCache α :=
  { st with entries := st.entries.filter fun p => ¬ (now - p.2.timestamp > p.2.ttl) }

/-- The fresh entry built by `set` before insertion. -/
def freshEntry (ck : CacheKey) (data : α) (ttlMs : Option Nat)
    (now : Nat) (st : ResponseCache α) : CacheEntry α :=
  { data := data, timestamp := now, ttl := resolveTtl ttlMs st.defaultTtlMs,
    route := ck.route, params := ck.params, scenario := ck.scenario,
    seed := ck.seed, hitCount := 0, lastAccess := now }

end ResponseCache

/-- An empty cache with the constructor defaults, over `Nat` payloads; used
by the concrete instances below. -/
def emptyNatCache : ResponseCache Nat :=
  { entries := [], maxEntries := 1000, defaultTtlMs := 300000, metrics := initMetrics }

/-! ### `TimeoutManager` (`src/performance/timeout.ts`)

A caller-supplied promise is modelled by its behaviour: resolve at a time,
reject at a time, or never settle. `fetchWithTimeout` races it against the
budget timer; the loser's eventual fate is discarded, exactly as in the
`Promise.race` pattern of the source. -/

/-- Behaviour of the primary (`fetchFn`) promise. -/
inductive PrimaryBehavior (α : Type) where
  | resolves (t : Nat) (v : α)
  | rejects (t : Nat) (msg : String)
  | hangs
  deriving DecidableEq, Repr

/-- Model of `TimeoutBudget` (`src/performance/types.ts`). -/
structure TimeoutBudget where
  fixtureTimeoutMs : Nat
  enablePassthrough : Bool
  logTimeouts : Bool
  deriving DecidableEq, Repr

/-- Counters held by a `TimeoutManager` instance. -/
structure TimeoutManagerState where
  timeoutHits : Nat
  totalRequests : Nat
  deriving DecidableEq, Repr

/-- Provenance reported by `fetchWithTimeout`. -/
inductive FetchSource where
  | fixture
  | passthrough
  deriving DecidableEq, Repr

/-- The `{ result, timedOut, source }` record returned by
`fetchWithTimeout`. -/
structure FetchOutcome (α : Type) where
  result : α
  timedOut : Bool
  source : FetchSource
  deriving DecidableEq, Repr

/-- Message of the budget-timer rejection
(`Fixture timeout after ${timeoutMs}ms`). -/
def timeoutMessage (timeoutMs : Nat) : String :=
  "Fixture timeout after " ++ natToString timeoutMs ++ "ms"

/-- Race of the primary promise against the budget timer: whoever settles
strictly first wins, the timer firing at `timeoutMs`. Returns the settled
value or rejection together with the elapsed time. -/
def racePrimary (timeoutMs : Nat) : PrimaryBehavior α → Except String α × Nat
  | .resolves t v =>
    if t < timeoutMs then (.ok v, t) else (.error (timeoutMessage timeoutMs), timeoutMs)
  | .rejects t msg =>
    if t < timeoutMs then (.error msg, t) else (.error (timeoutMessage timeoutMs), timeoutMs)
  | .hangs => (.error (timeoutMessage timeoutMs), timeoutMs)

/-- Pure core of `TimeoutManager.fetchWithTimeout`: the raced outcome, the
fallback decision taken in the `catch` block, whether `timeoutHits` was
counted, and the elapsed time. The `catch` classifies any rejection whose
message contains the substring `timeout` as a timeout
(`error.message.includes('timeout')`). -/
structure FetchCoreResult (α : Type) where
  out : Except String (FetchOutcome α)
  timeoutCounted : Bool
  durationMs : Nat
  deriving Repr

/-- Pure outcome of `TimeoutManager.fetchWithTimeout` for a given primary
behaviour and fallback (`fallbackFn` modelled by its settled result, `none`
when no fallback is supplied). -/
def fetchCore (cfg : TimeoutBudget) (primary : PrimaryBehavior α)
    (fallback : Option (Except String α)) : FetchCoreResult α :=
  let raced := racePrimary cfg.fixtureTimeoutMs primary
  match raced.1 with
  | .ok v => ⟨.ok ⟨v, false, .fixture⟩, false, raced.2⟩
  | .error msg =>
    if jsIncludes msg "timeout" then
      match cfg.enablePassthrough, fallback with
      | true, some (.ok fv) => ⟨.ok ⟨fv, true, .passthrough⟩, true, raced.2⟩
      | true, some (.error fe) => ⟨.error fe, true, raced.2⟩
      | true, none => ⟨.error msg, true, raced.2⟩
      | false, _ => ⟨.error msg, true, raced.2⟩
    else ⟨.error msg, false, raced.2⟩

/-- Model of `TimeoutManager.fetchWithTimeout` with the instance counters
threaded explicitly (`totalRequests++` on entry, `timeoutHits++` in the
timeout branch of the `catch`). -/
def fetchWithTimeout (cfg : TimeoutBudget) (st : TimeoutManagerState)
    (primary : PrimaryBehavior α) (fallback : Option (Except String α)) :
    FetchCoreResult α × TimeoutManagerState :=
  let c := fetchCore cfg primary fallback
  (c, { timeoutHits := st.timeoutHits + (if c.timeoutCounted then 1 else 0),
        totalRequests := st.totalRequests + 1 })

/-- Per-index outcome of the batch variant; `result` is absent for an entry
whose promise settled with a rejection (`null as T` in the source). -/
structure BatchOutcome (α : Type) where
  result : Option α
  timedOut : Bool
  source : FetchSource
  deriving DecidableEq, Repr

/-- Settle-all defaulting of `fetchMultipleWithTimeout`: a fulfilled call is
used as-is, a rejected call becomes the passthrough failure marker. -/
def settleBatch (out : Except String (FetchOutcome α)) : BatchOutcome α :=
  match out with
  | .ok o => ⟨some o.result, o.timedOut, o.source⟩
  | .error _ => ⟨none, true, .passthrough⟩

/-- Index-threaded worker of `fetchMultipleWithTimeout`. -/
def fetchMultipleGo (cfg : TimeoutBudget) (fallbacks : Option (List (Except String α))) :
    Nat → TimeoutManagerState → List (PrimaryBehavior α) →
    List (BatchOutcome α) × TimeoutManagerState
  | _, st, [] => ([], st)
  | i, st, req :: rest =>
    let r := fetchWithTimeout cfg st req (fallbacks.bind fun l => l[i]?)
    let tail := fetchMultipleGo cfg fallbacks (i + 1) r.2 rest
    (settleBatch r.1.out :: tail.1, tail.2)

/-- Model of `TimeoutManager.fetchMultipleWithTimeout`: every
`{primary, fallback}` pair runs through `fetchWithTimeout` with the
fallback found at its index (`fallbacks?.[index]`), and the results are
settled in order. -/
def fetchMultipleWithTimeout (cfg : TimeoutBudget) (st : TimeoutManagerState)
    (requests : List (PrimaryBehavior α)) (fallbacks : Option (List (Except String α))) :
    List (BatchOutcome α) × TimeoutManagerState :=
  fetchMultipleGo cfg fallbacks 0 st requests

/-! ### `PerformanceManager` (the performance orchestrator)

The current scenario is read from the external scenario engine
(`scenarioEngine.getCurrentScenario()`); it enters the model as an explicit
argument, per the collaborator interface of the spec. The call's wall-clock
start is the explicit `now`; the synchronous cache lookup takes no time, and
the executor path finishes at `now + durationMs` of the raced fetch. -/

/-- The `cache` block of `PerformanceConfig`. -/
structure CacheConfig where
  enabled : Bool
  maxEntries : Nat
  defaultTtlMs : Nat
  cleanupIntervalMs : Nat
  deriving DecidableEq, Repr

/-- The `metrics` block of `PerformanceConfig`. -/
structure MetricsConfig where
  enableCollection : Bool
  reportingIntervalMs : Nat
  deriving DecidableEq, Repr

/-- Model of `PerformanceConfig` (`src/performance/types.ts`). -/
structure PerformanceConfig where
  cache : CacheConfig
  timeout : TimeoutBudget
  metrics : MetricsConfig
  deriving DecidableEq, Repr

/-- Constructor defaults of `PerformanceManager` with an unset environment. -/
def defaultPerformanceConfig : PerformanceConfig :=
  { cache := { enabled := true, maxEntries := 1000, defaultTtlMs := 300000,
               cleanupIntervalMs := 60000 },
    timeout := { fixtureTimeoutMs := 35, enablePassthrough := true, logTimeouts := true },
    metrics := { enableCollection := true, reportingIntervalMs := 30000 } }

/-- Scenario identity supplied by the scenario engine collaborator. -/
structure Scenario where
  name : String
  seed : Nat
  deriving DecidableEq, Repr

/-- The options record of `executeFixtureRequest`. -/
structure ExecOptions where
  url : String
  method : Option String
  params : Option String
  enableCache : Option Bool
  ttlMs : Option Nat
  deriving DecidableEq, Repr

/-- Provenance of an `executeFixtureRequest` result. -/
inductive ExecSource where
  | cache
  | fixture
  | passthrough
  deriving DecidableEq, Repr

/-- The result record of `executeFixtureRequest`. -/
structure ExecResult (α : Type) where
  result : α
  fromCache : Bool
  timedOut : Bool
  source : ExecSource
  latencyMs : Nat
  deriving DecidableEq, Repr

/-- State of a `PerformanceManager` instance. -/
structure PMState (α : Type) where
  cache : ResponseCache α
  timeoutMgr : TimeoutManagerState
  config : PerformanceConfig
  startTime : Nat
  deriving DecidableEq, Repr

/-- A `PerformanceManager` as built by the constructor at time `now`. -/
def PMState.init (cfg : PerformanceConfig) (now : Nat) : PMState α :=
  { cache := { entries := [], maxEntries := cfg.cache.maxEntries,
               defaultTtlMs := cfg.cache.defaultTtlMs, metrics := initMetrics },
    timeoutMgr := { timeoutHits := 0, totalRequests := 0 },
    config := cfg, startTime := now }

/-- Cache key built by `executeFixtureRequest` from the options and the
current scenario (`seed: scenario.seed || 42`). -/
def efrCacheKey (scenario : Scenario) (opts : ExecOptions) : CacheKey :=
  { route := opts.url, params := opts.params.getD "",
    scenario := scenario.name, seed := defaultSeed scenario.seed }

/-- The guard of the cache lookup
(`this.config.cache.enabled && options.enableCache !== false`). -/
def cacheEnabledForCall (cfg : PerformanceConfig) (opts : ExecOptions) : Bool :=
  cfg.cache.enabled && !(opts.enableCache == some false)

/-- The cache-lookup phase of `executeFixtureRequest`: the lookup result and
the cache state it leaves behind (untouched when the lookup is skipped). -/
def efrCachePhase (pm : PMState α) (opts : ExecOptions) (ck : CacheKey) (now : Nat) :
    Option α × ResponseCache α :=
  if cacheEnabledForCall pm.config opts then ResponseCache.get ck now pm.cache
  else (none, pm.cache)

/-- Model of `PerformanceManager.executeFixtureRequest`. -/
def executeFixtureRequest (pm : PMState α) (scenario : Scenario)
    (fixture : PrimaryBehavior α) (passthrough : Except String α)
    (opts : ExecOptions) (now : Nat) :
    Except String (ExecResult α) × PMState α :=
  let ck := efrCacheKey scenario opts
  let phase := efrCachePhase pm opts ck now
  match phase.1 with
  | some v =>
    (.ok { result := v, fromCache := true, timedOut := false,
           source := .cache, latencyMs := 0 },
     { pm with cache := phase.2 })
  | none =>
    let f := fetchWithTimeout pm.config.timeout pm.timeoutMgr fixture (some passthrough)
    match f.1.out with
    | .error e => (.error e, { pm with cache := phase.2, timeoutMgr := f.2 })
    | .ok o =>
      let cache1 :=
        if pm.config.cache.enabled ∧ o.source = .fixture ∧ o.timedOut = false ∧
            opts.enableCache ≠ some false
        then ResponseCache.set ck o.result opts.ttlMs (now + f.1.durationMs) phase.2
        else phase.2
      let cache2 :=
        if o.timedOut then
          ResponseCache.updateMetricsTimeoutHits
            ((ResponseCache.getStats cache1).timeoutHits + 1) cache1
        else cache1
      (.ok { result := o.result, fromCache := false, timedOut := o.timedOut,
             source := if o.source = .fixture then .fixture else .passthrough,
             latencyMs := f.1.durationMs },
       { pm with cache := cache2, timeoutMgr := f.2 })

/-- The flat part of the `PerformanceManager.getMetrics` snapshot. -/
structure MetricsSnapshot where
  cacheHits : Nat
  cacheMisses : Nat
  timeoutHits : Nat
  passthroughCount : Nat
  averageResponseTime : ℚ
  totalRequests : Nat
  cacheHitRate : ℚ
  timeoutRate : ℚ
  cacheSize : Nat
  cacheMaxEntries : Nat
  timeoutBudgetMs : Nat
  passthroughEnabled : Bool
  uptime : Nat
  deriving DecidableEq, Repr

/-- Model of `PerformanceManager.getMetrics`: cache statistics and timeout
statistics merged into one snapshot. -/
def getMetrics (pm : PMState α) (now : Nat) : MetricsSnapshot :=
  let cacheStats := ResponseCache.getStats pm.cache
  { cacheHits := cacheStats.cacheHits
    cacheMisses := cacheStats.cacheMisses
    timeoutHits := pm.timeoutMgr.timeoutHits
    passthroughCount := cacheStats.passthroughCount
    averageResponseTime := cacheStats.averageResponseTime
    totalRequests := pm.timeoutMgr.totalRequests
    cacheHitRate := cacheStats.cacheHitRate
    timeoutRate := if pm.timeoutMgr.totalRequests > 0 then
        (pm.timeoutMgr.timeoutHits : ℚ) / pm.timeoutMgr.totalRequests else 0
    cacheSize := cacheStats.cacheSize
    cacheMaxEntries := cacheStats.maxEntries
    timeoutBudgetMs := pm.config.timeout.fixtureTimeoutMs
    passthroughEnabled := pm.config.timeout.enablePassthrough
    uptime := now - pm.startTime }

/-! ## Supporting lemmas: decimal rendering -/

theorem digitVal_digitChar {d : Nat} (h : d < 10) : digitVal (digitChar d) = d := by
  interval_cases d <;> rfl

theorem digitsRevVal_natDigitsRevGo (f : Nat) :
    ∀ n, n < f → digitsRevVal (natDigitsRevGo f n) = n := by
  induction f with
  | zero => intro n h; omega
  | succ f ih =>
    intro n hn
    rw [natDigitsRevGo]
    by_cases h : n < 10
    · rw [if_pos h]
      simp [digitsRevVal, digitVal_digitChar h]
    · rw [if_neg h]
      have hlt : n / 10 < n := Nat.div_lt_self (by omega) (by omega)
      simp only [digitsRevVal, ih (n / 10) (by omega),
        digitVal_digitChar (Nat.mod_lt n (by omega))]
      omega

theorem digitsRevVal_natDigitsRev (n : Nat) : digitsRevVal (natDigitsRev n) = n :=
  digitsRevVal_natDigitsRevGo (n + 1) n (Nat.lt_succ_self n)

theorem natDigitsRev_inj {m n : Nat} (h : natDigitsRev m = natDigitsRev n) : m = n := by
  have := digitsRevVal_natDigitsRev m
  rw [h, digitsRevVal_natDigitsRev] at this
  omega

theorem natToString_inj {m n : Nat} (h : natToString m = natToString n) : m = n := by
  apply natDigitsRev_inj
  have hdata : (natDigitsRev m).reverse = (natDigitsRev n).reverse :=
    congrArg String.data h
  simpa using congrArg List.reverse hdata

theorem digitChar_ne_colon (d : Nat) : digitChar d ≠ ':' := by
  unfold digitChar
  split <;> decide

theorem colon_not_mem_natDigitsRevGo (f : Nat) : ∀ n, ':' ∉ natDigitsRevGo f n := by
  induction f with
  | zero => intro n h; simp [natDigitsRevGo] at h
  | succ f ih =>
    intro n
    rw [natDigitsRevGo]
    by_cases h10 : n < 10
    · rw [if_pos h10]
      simp only [List.mem_singleton]
      intro h
      exact digitChar_ne_colon n h.symm
    · rw [if_neg h10]
      simp only [List.mem_cons, not_or]
      exact ⟨fun h => digitChar_ne_colon _ h.symm, ih (n / 10)⟩

theorem colon_not_mem_natDigitsRev {n : Nat} : ':' ∉ natDigitsRev n :=
  colon_not_mem_natDigitsRevGo (n + 1) n

/-! ## Claim C1 — fallback policy of `fetchWithTimeout`

The claim states that every primary failure that is not a budget timeout
propagates directly and that the fallback is triggered only by budget
exhaustion. The `catch` block classifies by message content
(`error.message.includes('timeout')`), so a primary rejection whose message
merely contains `timeout` also triggers the fallback before the timer
fires. -/

/-- Claim C1, counterexample: with the default budget of 35ms and
passthrough enabled, a primary that rejects at 0ms — long before the timer —
with the non-budget failure message `upstream timeout error` does not
propagate; the fallback is invoked and its value is returned as a
passthrough outcome. -/
theorem claim_C1_counterexample :
    (fetchWithTimeout (α := Nat) ⟨35, true, true⟩ ⟨0, 0⟩
        (.rejects 0 "upstream timeout error") (some (.ok 7))).1.out =
      .ok { result := 7, timedOut := true, source := .passthrough } ∧
    (fetchWithTimeout (α := Nat) ⟨35, true, true⟩ ⟨0, 0⟩
        (.rejects 0 "upstream timeout error") (some (.ok 7))).1.out ≠
      .error "upstream timeout error" := by
  constructor <;> decide

/-- Claim C1 as amended: a primary failure before the timer fires propagates
directly to the caller — without invoking the fallback and without counting a
timeout — exactly when its error message does not contain the substring
`timeout`; the fallback path is reachable only through the message test, by
budget exhaustion or a timeout-looking primary failure. -/
theorem claim_C1_amended {α : Type} (cfg : TimeoutBudget) (st : TimeoutManagerState)
    (t : Nat) (msg : String) (fallback : Option (Except String α))
    (ht : t < cfg.fixtureTimeoutMs)
    (hmsg : jsIncludes msg "timeout" = false) :
    fetchWithTimeout cfg st (.rejects t msg) fallback =
      (⟨.error msg, false, t⟩,
       { timeoutHits := st.timeoutHits, totalRequests := st.totalRequests + 1 }) := by
  unfold fetchWithTimeout fetchCore racePrimary
  simp [ht, hmsg]

/-- Witness for the amended claim C1 at a concrete input. -/
theorem claim_C1_witness :
    (0 < 35 ∧ jsIncludes "connection refused" "timeout" = false) ∧
    fetchWithTimeout (α := Nat) ⟨35, true, true⟩ ⟨4, 9⟩
        (.rejects 0 "connection refused") (some (.ok 3)) =
      (⟨.error "connection refused", false, 0⟩, ⟨4, 10⟩) :=
  ⟨⟨by decide, by decide⟩,
    claim_C1_amended ⟨35, true, true⟩ ⟨4, 9⟩ 0 "connection refused" (some (.ok 3))
      (by decide) (by decide)⟩

/-! ## Claim C9 — settle-all semantics of the batch variant -/

theorem fetchMultipleGo_spec {α : Type} (cfg : TimeoutBudget)
    (fallbacks : Option (List (Except String α))) :
    ∀ (reqs : List (PrimaryBehavior α)) (i : Nat) (st : TimeoutManagerState),
      (fetchMultipleGo cfg fallbacks i st reqs).1.length = reqs.length ∧
      ∀ j (h : j < reqs.length),
        (fetchMultipleGo cfg fallbacks i st reqs).1[j]? =
          some (settleBatch (fetchCore cfg reqs[j] (fallbacks.bind fun l => l[i + j]?)).out) := by
  intro reqs
  induction reqs with
  | nil =>
    intro i st
    exact ⟨rfl, fun j h => absurd h (by simp)⟩
  | cons a rest ih =>
    intro i st
    refine ⟨by simp [fetchMultipleGo, (ih (i + 1) _).1], ?_⟩
    intro j h
    match j with
    | 0 =>
      simp [fetchMultipleGo, fetchWithTimeout]
    | j + 1 =>
      have hrec := (ih (i + 1)
        ((fetchWithTimeout cfg st a (fallbacks.bind fun l => l[i]?)).2)).2 j
        (by simpa using h)
      simp only [fetchMultipleGo, List.getElem?_cons_succ]
      rw [hrec]
      have hidx : i + 1 + j = i + (j + 1) := by omega
      simp [hidx]

/-- Claim C9: the batch variant returns exactly one outcome per input pair,
in input order; each position holds the settled outcome of its own
`fetchWithTimeout` run with the fallback found at its index, so one pair's
rejection does not abort the others — a rejected pair's position holds the
defaulted failure marker (absent result, `timedOut`, passthrough source)
instead of throwing. -/
theorem claim_C9 {α : Type} (cfg : TimeoutBudget) (st : TimeoutManagerState)
    (requests : List (PrimaryBehavior α)) (fallbacks : Option (List (Except String α))) :
    (fetchMultipleWithTimeout cfg st requests fallbacks).1.length = requests.length ∧
    ∀ i (h : i < requests.length),
      (fetchMultipleWithTimeout cfg st requests fallbacks).1[i]? =
        some (settleBatch (fetchCore cfg requests[i] (fallbacks.bind fun l => l[i]?)).out) := by
  have h := fetchMultipleGo_spec cfg fallbacks requests 0 st
  refine ⟨h.1, fun i hi => ?_⟩
  have := h.2 i hi
  simpa using this

/-- Witness for claim C9: a three-pair batch whose middle pair fails with a
non-timeout primary rejection yields the failure marker at index 1 while the
other positions settle normally. -/
theorem claim_C9_witness :
    ((fetchMultipleWithTimeout (α := Nat) ⟨35, true, true⟩ ⟨0, 0⟩
        [.resolves 1 10, .rejects 2 "boom", .hangs]
        (some [.ok 91, .ok 92, .ok 93])).1)[1]? =
      some ⟨none, true, .passthrough⟩ :=
  ((claim_C9 ⟨35, true, true⟩ ⟨0, 0⟩
      [.resolves 1 10, .rejects 2 "boom", .hangs]
      (some [.ok 91, .ok 92, .ok 93])).2 1 (by decide)).trans (by decide)

/-! ## Supporting lemmas: the insertion-ordered map -/

theorem mapFind_mapSet_self {κ β : Type _} [DecidableEq κ] (k : κ) (v : β)
    (l : List (κ × β)) : mapFind k (mapSet k v l) = some v := by
  induction l with
  | nil => rw [mapSet, mapFind, if_pos rfl]
  | cons p rest ih =>
    obtain ⟨k2, v2⟩ := p
    by_cases h : k2 = k
    · rw [mapSet, if_pos h, mapFind, if_pos rfl]
    · rw [mapSet, if_neg h, mapFind, if_neg h]
      exact ih

theorem mapFind_mapSet_ne {κ β : Type _} [DecidableEq κ] {k1 k : κ} (v : β)
    (l : List (κ × β)) (hne : k1 ≠ k) : mapFind k1 (mapSet k v l) = mapFind k1 l := by
  induction l with
  | nil =>
    simp only [mapSet, mapFind]
    rw [if_neg (fun hh : k = k1 => hne hh.symm)]
  | cons p rest ih =>
    obtain ⟨k2, v2⟩ := p
    by_cases h : k2 = k
    · subst h
      simp only [mapSet, if_pos rfl, mapFind]
      rw [if_neg (fun hh : k2 = k1 => hne hh.symm),
        if_neg (fun hh : k2 = k1 => hne hh.symm)]
    · simp only [mapSet, if_neg h, mapFind]
      by_cases h2 : k2 = k1
      · rw [if_pos h2, if_pos h2]
      · rw [if_neg h2, if_neg h2, ih]

theorem mapFind_mapDelete_ne {κ β : Type _} [DecidableEq κ] {k1 k : κ}
    (l : List (κ × β)) (hne : k1 ≠ k) : mapFind k1 (mapDelete k l) = mapFind k1 l := by
  induction l with
  | nil => rfl
  | cons p rest ih =>
    obtain ⟨k2, v2⟩ := p
    by_cases h : k2 = k
    · subst h
      rw [mapDelete, if_pos rfl, mapFind, if_neg (fun hh : k2 = k1 => hne hh.symm)]
    · rw [mapDelete, if_neg h, mapFind, mapFind]
      by_cases h2 : k2 = k1
      · rw [if_pos h2, if_pos h2]
      · rw [if_neg h2, if_neg h2, ih]

theorem mapFind_eq_none_of_not_mem_keys {κ β : Type _} [DecidableEq κ] {k : κ}
    {l : List (κ × β)} (h : k ∉ l.map Prod.fst) : mapFind k l = none := by
  induction l with
  | nil => rfl
  | cons p rest ih =>
    obtain ⟨k2, v2⟩ := p
    simp only [List.map_cons, List.mem_cons, not_or] at h
    rw [mapFind, if_neg (fun hh : k2 = k => h.1 hh.symm)]
    exact ih h.2

theorem mapFind_mapDelete_self {κ β : Type _} [DecidableEq κ] (k : κ)
    {l : List (κ × β)} (hnodup : (l.map Prod.fst).Nodup) :
    mapFind k (mapDelete k l) = none := by
  induction l with
  | nil => rfl
  | cons p rest ih =>
    obtain ⟨k2, v2⟩ := p
    simp only [List.map_cons, List.nodup_cons] at hnodup
    by_cases h : k2 = k
    · subst h
      rw [mapDelete, if_pos rfl]
      exact mapFind_eq_none_of_not_mem_keys hnodup.1
    · rw [mapDelete, if_neg h, mapFind, if_neg h]
      exact ih hnodup.2

theorem keys_mapDelete_sublist {κ β : Type _} [DecidableEq κ] (k : κ)
    (l : List (κ × β)) : ((mapDelete k l).map Prod.fst).Sublist (l.map Prod.fst) := by
  induction l with
  | nil => simp [mapDelete]
  | cons p rest ih =>
    obtain ⟨k2, v2⟩ := p
    by_cases h : k2 = k
    · rw [mapDelete, if_pos h]
      simp only [List.map_cons]
      exact List.sublist_cons_self k2 (rest.map Prod.fst)
    · rw [mapDelete, if_neg h]
      simpa using ih

theorem nodup_keys_mapDelete {κ β : Type _} [DecidableEq κ] (k : κ)
    {l : List (κ × β)} (hnodup : (l.map Prod.fst).Nodup) :
    ((mapDelete k l).map Prod.fst).Nodup :=
  hnodup.sublist (keys_mapDelete_sublist k l)

theorem keys_mapSet {κ β : Type _} [DecidableEq κ] (k : κ) (v : β)
    (l : List (κ × β)) :
    (mapSet k v l).map Prod.fst =
      if k ∈ l.map Prod.fst then l.map Prod.fst else l.map Prod.fst ++ [k] := by
  induction l with
  | nil => simp [mapSet]
  | cons p rest ih =>
    obtain ⟨k2, v2⟩ := p
    by_cases h : k2 = k
    · subst h
      rw [mapSet, if_pos rfl]
      simp
    · rw [mapSet, if_neg h]
      simp only [List.map_cons, List.mem_cons]
      rw [ih]
      by_cases hmem : k ∈ rest.map Prod.fst
      · rw [if_pos hmem, if_pos (Or.inr hmem)]
      · rw [if_neg hmem,
          if_neg (fun hh => hh.elim (fun h1 => h h1.symm) (fun h2 => hmem h2))]
        simp

theorem nodup_keys_mapSet {κ β : Type _} [DecidableEq κ] (k : κ) (v : β)
    {l : List (κ × β)} (hnodup : (l.map Prod.fst).Nodup) :
    ((mapSet k v l).map Prod.fst).Nodup := by
  rw [keys_mapSet]
  by_cases hmem : k ∈ l.map Prod.fst
  · rwa [if_pos hmem]
  · rw [if_neg hmem]
    simp [List.nodup_append, hnodup, hmem]

/-! ## Supporting lemmas: `ResponseCache` operations -/

namespace ResponseCache

theorem evictLRU_metrics {α : Type} (now : Nat) (st : ResponseCache α) :
    (evictLRU now st).metrics = st.metrics := by
  unfold evictLRU
  split <;> rfl

theorem evictLRU_maxEntries {α : Type} (now : Nat) (st : ResponseCache α) :
    (evictLRU now st).maxEntries = st.maxEntries := by
  unfold evictLRU
  split <;> rfl

theorem evictLRU_defaultTtlMs {α : Type} (now : Nat) (st : ResponseCache α) :
    (evictLRU now st).defaultTtlMs = st.defaultTtlMs := by
  unfold evictLRU
  split <;> rfl

theorem set_entries {α : Type} (ck : CacheKey) (data : α) (ttlMs : Option Nat)
    (now : Nat) (st : ResponseCache α) :
    (set ck data ttlMs now st).entries =
      mapSet (generateKey ck) (freshEntry ck data ttlMs now st)
        (if st.entries.length ≥ st.maxEntries then evictLRU now st else st).entries := rfl

theorem set_metrics {α : Type} (ck : CacheKey) (data : α) (ttlMs : Option Nat)
    (now : Nat) (st : ResponseCache α) :
    (set ck data ttlMs now st).metrics = st.metrics := by
  show (if st.entries.length ≥ st.maxEntries then evictLRU now st else st).metrics = st.metrics
  by_cases h : st.entries.length ≥ st.maxEntries
  · rw [if_pos h, evictLRU_metrics]
  · rw [if_neg h]

theorem get_eq_of_found {α : Type} (ck : CacheKey) (now : Nat)
    (st : ResponseCache α) (e : CacheEntry α)
    (hfind : mapFind (generateKey ck) st.entries = some e) :
    get ck now st =
      if now - e.timestamp > e.ttl then
        (none,
          { st with
            entries := mapDelete (generateKey ck) st.entries
            metrics := { st.metrics with cacheMisses := st.metrics.cacheMisses + 1 } })
      else
        (some e.data,
          { st with
            entries := mapSet (generateKey ck)
              { e with hitCount := e.hitCount + 1, lastAccess := now }
              (mapDelete (generateKey ck) st.entries)
            metrics := { st.metrics with cacheHits := st.metrics.cacheHits + 1 } }) := by
  simp only [get, hfind]

theorem get_eq_of_absent {α : Type} (ck : CacheKey) (now : Nat)
    (st : ResponseCache α)
    (hfind : mapFind (generateKey ck) st.entries = none) :
    get ck now st =
      (none, { st with
        metrics := { st.metrics with cacheMisses := st.metrics.cacheMisses + 1 } }) := by
  simp only [get, hfind]

end ResponseCache

theorem nodup_keys_evictLRU {α : Type} (now : Nat) {st : ResponseCache α}
    (hnodup : (st.entries.map Prod.fst).Nodup) :
    (((ResponseCache.evictLRU now st).entries).map Prod.fst).Nodup := by
  unfold ResponseCache.evictLRU
  split
  · exact nodup_keys_mapDelete _ hnodup
  · exact hnodup

theorem nodup_keys_set {α : Type} (ck : CacheKey) (data : α) (ttlMs : Option Nat)
    (now : Nat) {st : ResponseCache α} (hnodup : (st.entries.map Prod.fst).Nodup) :
    ((ResponseCache.set ck data ttlMs now st).entries.map Prod.fst).Nodup := by
  rw [ResponseCache.set_entries]
  apply nodup_keys_mapSet
  by_cases h : st.entries.length ≥ st.maxEntries
  · rw [if_pos h]
    exact nodup_keys_evictLRU now hnodup
  · rwa [if_neg h]

theorem mapFind_set_entries_self {α : Type} (ck : CacheKey) (data : α)
    (ttlMs : Option Nat) (now : Nat) (st : ResponseCache α) :
    mapFind (generateKey ck) (ResponseCache.set ck data ttlMs now st).entries =
      some (ResponseCache.freshEntry ck data ttlMs now st) := by
  rw [ResponseCache.set_entries]
  exact mapFind_mapSet_self _ _ _

/-! ## Claim C6 — TTL semantics of `ResponseCache.get` -/

/-- Claim C6: after `set` at `t0` stores an entry with resolved TTL `T`, a
`get` at `t` with age `t - t0 ≤ T` returns the stored data, counts a hit,
bumps the entry's hit counter to 1 and refreshes its recency marker to `t`;
a `get` with age `t - t0 > T` counts a miss, removes the expired entry and
returns absent; and a `get` for a key with no entry counts a miss and
leaves the entries untouched. -/
theorem claim_C6 {α : Type} (st : ResponseCache α) (ck : CacheKey) (data : α)
    (ttlMs : Option Nat) (t0 t : Nat)
    (hnodup : (st.entries.map Prod.fst).Nodup) :
    (t - t0 ≤ ResponseCache.resolveTtl ttlMs st.defaultTtlMs →
      (ResponseCache.get ck t (ResponseCache.set ck data ttlMs t0 st)).1 = some data ∧
      (ResponseCache.get ck t (ResponseCache.set ck data ttlMs t0 st)).2.metrics.cacheHits =
        st.metrics.cacheHits + 1 ∧
      mapFind (generateKey ck)
          (ResponseCache.get ck t (ResponseCache.set ck data ttlMs t0 st)).2.entries =
        some { data := data, timestamp := t0,
               ttl := ResponseCache.resolveTtl ttlMs st.defaultTtlMs,
               route := ck.route, params := ck.params, scenario := ck.scenario,
               seed := ck.seed, hitCount := 1, lastAccess := t }) ∧
    (t - t0 > ResponseCache.resolveTtl ttlMs st.defaultTtlMs →
      (ResponseCache.get ck t (ResponseCache.set ck data ttlMs t0 st)).1 = none ∧
      (ResponseCache.get ck t (ResponseCache.set ck data ttlMs t0 st)).2.metrics.cacheMisses =
        st.metrics.cacheMisses + 1 ∧
      mapFind (generateKey ck)
          (ResponseCache.get ck t (ResponseCache.set ck data ttlMs t0 st)).2.entries = none) ∧
    (mapFind (generateKey ck) st.entries = none →
      (ResponseCache.get ck t st).1 = none ∧
      (ResponseCache.get ck t st).2.metrics.cacheMisses = st.metrics.cacheMisses + 1 ∧
      (ResponseCache.get ck t st).2.entries = st.entries) := by
  have hfind := mapFind_set_entries_self ck data ttlMs t0 st
  have hget := ResponseCache.get_eq_of_found ck t
    (ResponseCache.set ck data ttlMs t0 st) _ hfind
  have hm := ResponseCache.set_metrics ck data ttlMs t0 st
  have hsetnodup := nodup_keys_set ck data ttlMs t0 hnodup
  simp only [ResponseCache.freshEntry] at hget
  refine ⟨?_, ?_, ?_⟩
  · intro hle
    rw [hget,
      if_neg (show ¬(t - t0 > ResponseCache.resolveTtl ttlMs st.defaultTtlMs) by omega)]
    refine ⟨rfl, by simp [hm], ?_⟩
    simp only
    rw [mapFind_mapSet_self]
  · intro hgt
    rw [hget,
      if_pos (show t - t0 > ResponseCache.resolveTtl ttlMs st.defaultTtlMs by omega)]
    refine ⟨rfl, by simp [hm], ?_⟩
    simp only
    exact mapFind_mapDelete_self _ hsetnodup
  · intro habsent
    rw [ResponseCache.get_eq_of_absent ck t st habsent]
    exact ⟨rfl, rfl, rfl⟩

/-- Witness for claim C6: a concrete entry stored at time 100 with TTL 50 is
retrievable at time 150 and absent, as a counted miss, at time 151. -/
theorem claim_C6_witness :
    ((150 - 100 ≤ ResponseCache.resolveTtl (some 50) 300000) ∧
      (ResponseCache.get ⟨"/a", "", "s", 1⟩ 150
        (ResponseCache.set ⟨"/a", "", "s", 1⟩ (7 : Nat) (some 50) 100
          emptyNatCache)).1 = some 7) ∧
    ((151 - 100 > ResponseCache.resolveTtl (some 50) 300000) ∧
      (ResponseCache.get ⟨"/a", "", "s", 1⟩ 151
        (ResponseCache.set ⟨"/a", "", "s", 1⟩ (7 : Nat) (some 50) 100
          emptyNatCache)).1 = none) := by
  constructor
  · exact ⟨by decide,
      ((claim_C6 emptyNatCache ⟨"/a", "", "s", 1⟩ 7 (some 50) 100 150
        (by decide)).1 (by decide)).1⟩
  · exact ⟨by decide,
      ((claim_C6 emptyNatCache ⟨"/a", "", "s", 1⟩ 7 (some 50) 100 151
        (by decide)).2.1 (by decide)).1⟩

/-! ## Supporting lemmas: freshness, lengths and the eviction scan -/

theorem not_mem_keys_of_mapFind_eq_none {κ β : Type _} [DecidableEq κ] {k : κ}
    {l : List (κ × β)} (h : mapFind k l = none) : k ∉ l.map Prod.fst := by
  induction l with
  | nil => simp
  | cons p rest ih =>
    obtain ⟨k2, v2⟩ := p
    rw [mapFind] at h
    by_cases h2 : k2 = k
    · rw [if_pos h2] at h
      exact absurd h (by simp)
    · rw [if_neg h2] at h
      simp only [List.map_cons, List.mem_cons, not_or]
      exact ⟨fun hh => h2 hh.symm, ih h⟩

theorem mapSet_eq_append_of_fresh {κ β : Type _} [DecidableEq κ] {k : κ} (v : β)
    {l : List (κ × β)} (h : mapFind k l = none) : mapSet k v l = l ++ [(k, v)] := by
  induction l with
  | nil => rfl
  | cons p rest ih =>
    obtain ⟨k2, v2⟩ := p
    rw [mapFind] at h
    by_cases h2 : k2 = k
    · rw [if_pos h2] at h
      exact absurd h (by simp)
    · rw [if_neg h2] at h
      rw [mapSet, if_neg h2, ih h, List.cons_append]

theorem length_mapDelete_of_mem_keys {κ β : Type _} [DecidableEq κ] {k : κ}
    {l : List (κ × β)} (h : k ∈ l.map Prod.fst) :
    (mapDelete k l).length + 1 = l.length := by
  induction l with
  | nil => simp at h
  | cons p rest ih =>
    obtain ⟨k2, v2⟩ := p
    by_cases h2 : k2 = k
    · rw [mapDelete, if_pos h2, List.length_cons]
    · rw [mapDelete, if_neg h2, List.length_cons, List.length_cons]
      simp only [List.map_cons, List.mem_cons] at h
      rcases h with h | h
      · exact absurd h.symm h2
      · rw [ih h]

theorem evictScan_spec {α : Type} :
    ∀ (l : List (String × CacheEntry α)) (a : Option String × Nat),
      (ResponseCache.evictScan a l = a ∧ ∀ p ∈ l, a.2 ≤ p.2.lastAccess) ∨
      (∃ km em, (km, em) ∈ l ∧
        ResponseCache.evictScan a l = (some km, em.lastAccess) ∧
        em.lastAccess < a.2 ∧ ∀ q ∈ l, em.lastAccess ≤ q.2.lastAccess) := by
  intro l
  induction l with
  | nil => intro a; exact Or.inl ⟨rfl, by simp⟩
  | cons p rest ih =>
    intro a
    obtain ⟨k, e⟩ := p
    by_cases h : e.lastAccess < a.2
    · simp only [ResponseCache.evictScan, if_pos h]
      rcases ih (some k, e.lastAccess) with ⟨heq, hall⟩ | ⟨km, em, hmem, heq, hlt, hmin⟩
      · right
        refine ⟨k, e, List.mem_cons_self _ _, heq, h, ?_⟩
        intro q hq
        rcases List.mem_cons.mp hq with rfl | hq
        · exact le_refl _
        · exact hall q hq
      · right
        refine ⟨km, em, List.mem_cons_of_mem _ hmem, heq, lt_trans hlt h, ?_⟩
        intro q hq
        rcases List.mem_cons.mp hq with rfl | hq
        · exact le_of_lt hlt
        · exact hmin q hq
    · simp only [ResponseCache.evictScan, if_neg h]
      rcases ih a with ⟨heq, hall⟩ | ⟨km, em, hmem, heq, hlt, hmin⟩
      · left
        refine ⟨heq, ?_⟩
        intro q hq
        rcases List.mem_cons.mp hq with rfl | hq
        · exact le_of_not_lt h
        · exact hall q hq
      · right
        refine ⟨km, em, List.mem_cons_of_mem _ hmem, heq, hlt, ?_⟩
        intro q hq
        rcases List.mem_cons.mp hq with rfl | hq
        · exact le_trans (le_of_lt hlt) (le_of_not_lt h)
        · exact hmin q hq

theorem evictLRU_of_no_older {α : Type} (now : Nat) (st : ResponseCache α)
    (h : ∀ q ∈ st.entries, now ≤ q.2.lastAccess) :
    ResponseCache.evictLRU now st = st := by
  rcases evictScan_spec st.entries (none, now) with ⟨heq, _⟩ | ⟨km, em, hmem, heq, hlt, _⟩
  · unfold ResponseCache.evictLRU
    rw [heq]
  · exact absurd hlt (not_lt.mpr (h _ hmem))

theorem evictLRU_of_older {α : Type} (now : Nat) (st : ResponseCache α)
    (h : ∃ p ∈ st.entries, p.2.lastAccess < now) :
    ∃ km em, (km, em) ∈ st.entries ∧ em.lastAccess < now ∧
      (∀ q ∈ st.entries, em.lastAccess ≤ q.2.lastAccess) ∧
      ResponseCache.evictLRU now st = { st with entries := mapDelete km st.entries } := by
  rcases evictScan_spec st.entries (none, now) with ⟨_, hall⟩ | ⟨km, em, hmem, heq, hlt, hmin⟩
  · obtain ⟨p, hp, hplt⟩ := h
    exact absurd hplt (not_lt.mpr (hall p hp))
  · refine ⟨km, em, hmem, hlt, hmin, ?_⟩
    unfold ResponseCache.evictLRU
    rw [heq]

/-! ## Claim C5 — LRU eviction discipline of `ResponseCache.set`

The code's guard is `cache.size >= maxEntries` with no check that the
incoming key is new, and `evictLRU` considers only entries with
`lastAccess < Date.now()`; both differ from the claim. -/

/-- Claim C5, counterexample: (a) with `maxEntries = 2` holding `/a` and
`/b`, a `set` that merely replaces the existing key `/b` still evicts `/a`,
so eviction is not restricted to the insertion of a new key; (b) with
`maxEntries = 1`, inserting a second distinct key at the same millisecond as
the first leaves two entries: no entry has `lastAccess` strictly below the
current time, nothing is evicted, and the store exceeds `maxEntries` after a
`set`. -/
theorem claim_C5_counterexample :
    (mapFind (generateKey ⟨"/a", "", "s", 1⟩)
        (ResponseCache.set ⟨"/b", "", "s", 1⟩ 2 none 5
          (ResponseCache.set ⟨"/b", "", "s", 1⟩ 1 none 1
            (ResponseCache.set ⟨"/a", "", "s", 1⟩ (0 : Nat) none 0
              { entries := [], maxEntries := 2, defaultTtlMs := 1000,
                metrics := initMetrics }))).entries = none ∧
      (ResponseCache.set ⟨"/b", "", "s", 1⟩ 2 none 5
          (ResponseCache.set ⟨"/b", "", "s", 1⟩ 1 none 1
            (ResponseCache.set ⟨"/a", "", "s", 1⟩ (0 : Nat) none 0
              { entries := [], maxEntries := 2, defaultTtlMs := 1000,
                metrics := initMetrics }))).entries.length = 1) ∧
    ¬ ((ResponseCache.set ⟨"/b", "", "s", 1⟩ 1 none 5
          (ResponseCache.set ⟨"/a", "", "s", 1⟩ (0 : Nat) none 5
            { entries := [], maxEntries := 1, defaultTtlMs := 1000,
              metrics := initMetrics })).entries.length ≤
        (ResponseCache.set ⟨"/b", "", "s", 1⟩ 1 none 5
          (ResponseCache.set ⟨"/a", "", "s", 1⟩ (0 : Nat) none 5
            { entries := [], maxEntries := 1, defaultTtlMs := 1000,
              metrics := initMetrics })).maxEntries) := by
  refine ⟨⟨?_, ?_⟩, ?_⟩ <;> decide

/-- Claim C5 as amended: a `set` below capacity never evicts; a `set` at or
above capacity (whether the key is new or replaces an existing one) evicts
an entry whose recency marker is oldest — strictly older than the current
time with no entry older — and inserts into the store with that entry
deleted; when no entry is strictly older than the current time nothing is
evicted, so a `set` of a new key at capacity can leave the store above
`maxEntries`; a `set` of a new key at exactly capacity with an evictable
entry present leaves exactly `maxEntries` entries. -/
theorem claim_C5_amended {α : Type} (st : ResponseCache α) (ck : CacheKey)
    (data : α) (ttlMs : Option Nat) (now : Nat) :
    (st.entries.length < st.maxEntries →
      (ResponseCache.set ck data ttlMs now st).entries =
        mapSet (generateKey ck) (ResponseCache.freshEntry ck data ttlMs now st)
          st.entries) ∧
    ((∀ q ∈ st.entries, now ≤ q.2.lastAccess) →
      (ResponseCache.set ck data ttlMs now st).entries =
        mapSet (generateKey ck) (ResponseCache.freshEntry ck data ttlMs now st)
          st.entries) ∧
    (st.entries.length ≥ st.maxEntries →
      (∃ p ∈ st.entries, p.2.lastAccess < now) →
      ∃ km em, (km, em) ∈ st.entries ∧ em.lastAccess < now ∧
        (∀ q ∈ st.entries, em.lastAccess ≤ q.2.lastAccess) ∧
        (ResponseCache.set ck data ttlMs now st).entries =
          mapSet (generateKey ck) (ResponseCache.freshEntry ck data ttlMs now st)
            (mapDelete km st.entries)) ∧
    (st.entries.length = st.maxEntries →
      mapFind (generateKey ck) st.entries = none →
      (∃ p ∈ st.entries, p.2.lastAccess < now) →
      (ResponseCache.set ck data ttlMs now st).entries.length = st.maxEntries) := by
  refine ⟨?_, ?_, ?_, ?_⟩
  · intro h
    rw [ResponseCache.set_entries, if_neg (not_le.mpr h)]
  · intro h
    by_cases hc : st.entries.length ≥ st.maxEntries
    · rw [ResponseCache.set_entries, if_pos hc, evictLRU_of_no_older now st h]
    · rw [ResponseCache.set_entries, if_neg hc]
  · intro hc hex
    obtain ⟨km, em, hmem, hlt, hmin, heq⟩ := evictLRU_of_older now st hex
    refine ⟨km, em, hmem, hlt, hmin, ?_⟩
    rw [ResponseCache.set_entries, if_pos hc, heq]
  · intro hlen hfresh hex
    obtain ⟨km, em, hmem, hlt, hmin, heq⟩ := evictLRU_of_older now st hex
    rw [ResponseCache.set_entries, if_pos (le_of_eq hlen.symm), heq]
    have hkeys : (generateKey ck) ∉ (mapDelete km st.entries).map Prod.fst :=
      fun hmemk => not_mem_keys_of_mapFind_eq_none hfresh
        ((keys_mapDelete_sublist km st.entries).subset hmemk)
    rw [mapSet_eq_append_of_fresh _ (mapFind_eq_none_of_not_mem_keys hkeys)]
    have hkm : km ∈ st.entries.map Prod.fst := List.mem_map_of_mem Prod.fst hmem
    have hlenDel := length_mapDelete_of_mem_keys hkm
    simp only [List.length_append, List.length_singleton]
    omega

/-- Witness for the amended claim C5: inserting a third distinct key into a
two-entry cache at capacity 2, with entries older than the insertion time,
keeps the store at exactly 2 entries. -/
theorem claim_C5_witness :
    (ResponseCache.set ⟨"/c", "", "s", 1⟩ 9 none 7
        (ResponseCache.set ⟨"/b", "", "s", 1⟩ 1 none 1
          (ResponseCache.set ⟨"/a", "", "s", 1⟩ (0 : Nat) none 0
            { entries := [], maxEntries := 2, defaultTtlMs := 1000,
              metrics := initMetrics }))).entries.length = 2 :=
  (claim_C5_amended
      (ResponseCache.set ⟨"/b", "", "s", 1⟩ 1 none 1
        (ResponseCache.set ⟨"/a", "", "s", 1⟩ (0 : Nat) none 0
          { entries := [], maxEntries := 2, defaultTtlMs := 1000,
            metrics := initMetrics }))
      ⟨"/c", "", "s", 1⟩ 9 none 7).2.2.2 (by decide) (by decide) (by decide)

/-! ## Supporting lemmas: colon-freeness of key components -/

theorem upperHexChar_ne_colon (d : Nat) : upperHexChar d ≠ ':' := by
  unfold upperHexChar
  split <;> decide

theorem colon_not_mem_formEncodeChar (c : Char) : ':' ∉ formEncodeChar c := by
  unfold formEncodeChar
  by_cases h : isUnreservedFormChar c
  · rw [if_pos h]
    simp only [List.mem_singleton]
    intro hc
    rw [← hc] at h
    exact absurd h (by decide)
  · rw [if_neg h]
    by_cases hsp : c = ' '
    · rw [if_pos hsp]
      decide
    · rw [if_neg hsp]
      simp only [List.mem_cons, List.not_mem_nil, or_false, not_or]
      exact ⟨by decide, fun hh => upperHexChar_ne_colon _ hh.symm,
        fun hh => upperHexChar_ne_colon _ hh.symm⟩

theorem colon_not_mem_formEncodeChars (l : List Char) : ':' ∉ formEncodeChars l := by
  induction l with
  | nil => simp [formEncodeChars]
  | cons c rest ih =>
    rw [formEncodeChars]
    intro h
    rcases List.mem_append.mp h with h | h
    · exact colon_not_mem_formEncodeChar c h
    · exact ih h

theorem mem_joinWithChar {sep c : Char} :
    ∀ {gs : List (List Char)}, c ∈ joinWithChar sep gs → c = sep ∨ ∃ g ∈ gs, c ∈ g := by
  intro gs
  induction gs with
  | nil => intro h; simp [joinWithChar] at h
  | cons g rest ih =>
    cases rest with
    | nil =>
      intro h
      rw [joinWithChar] at h
      exact Or.inr ⟨g, by simp, h⟩
    | cons g2 rest2 =>
      intro h
      have hj : joinWithChar sep (g :: g2 :: rest2) =
          g ++ sep :: joinWithChar sep (g2 :: rest2) := rfl
      rw [hj] at h
      rcases List.mem_append.mp h with h | h
      · exact Or.inr ⟨g, by simp, h⟩
      · rcases List.mem_cons.mp h with rfl | h
        · exact Or.inl rfl
        · rcases ih h with h | ⟨g', hg', hc⟩
          · exact Or.inl h
          · exact Or.inr ⟨g', by simp [hg'], hc⟩

theorem colon_not_mem_serialize (pairs : List (List Char × List Char)) :
    ':' ∉ (serializeQueryPairs pairs).data := by
  intro h
  rcases mem_joinWithChar h with h | ⟨g, hg, hc⟩
  · exact absurd h (by decide)
  · obtain ⟨p, _, rfl⟩ := List.mem_map.mp hg
    rcases List.mem_append.mp hc with hc | hc
    · exact colon_not_mem_formEncodeChars _ hc
    · rcases List.mem_cons.mp hc with hc | hc
      · exact absurd hc (by decide)
      · exact colon_not_mem_formEncodeChars _ hc

theorem colon_not_mem_normalizeParams (params : String) :
    ':' ∉ (normalizeParams params).data := by
  unfold normalizeParams
  by_cases h : params = ""
  · rw [if_pos h]
    simp
  · rw [if_neg h]
    exact colon_not_mem_serialize _

theorem colon_not_mem_natToString (n : Nat) : ':' ∉ (natToString n).data := by
  intro h
  exact colon_not_mem_natDigitsRev (List.mem_reverse.mp h)

/-! ## Supporting lemmas: splitting a colon-separated key -/

theorem append_colon_inj :
    ∀ (s1 : List Char) {s2 t1 t2 : List Char},
      ':' ∉ s1 → ':' ∉ s2 → s1 ++ ':' :: t1 = s2 ++ ':' :: t2 → s1 = s2 ∧ t1 = t2 := by
  intro s1
  induction s1 with
  | nil =>
    intro s2 t1 t2 h1 h2 h
    cases s2 with
    | nil => simpa using h
    | cons c s2' =>
      rw [List.nil_append, List.cons_append] at h
      injection h with hc ht
      rw [hc] at h2
      exact absurd (List.mem_cons_self _ _) h2
  | cons c s1' ih =>
    intro s2 t1 t2 h1 h2 h
    cases s2 with
    | nil =>
      rw [List.nil_append, List.cons_append] at h
      injection h with hc ht
      rw [← hc] at h1
      exact absurd (List.mem_cons_self _ _) h1
    | cons c2 s2' =>
      rw [List.cons_append, List.cons_append] at h
      injection h with hc ht
      subst hc
      have := ih (fun m => h1 (List.mem_cons_of_mem _ m))
        (fun m => h2 (List.mem_cons_of_mem _ m)) ht
      exact ⟨by rw [this.1], this.2⟩

theorem string_data_inj {s t : String} (h : s.data = t.data) : s = t :=
  congrArg String.mk h

/-- The character-level decomposition of `generateKey`. -/
theorem generateKey_data (ck : CacheKey) :
    (generateKey ck).data =
      (normalizeRoute ck.route).data ++ ':' ::
        ((normalizeParams ck.params).data ++ ':' ::
          ((defaultScenario ck.scenario).data ++ ':' ::
            (natToString (defaultSeed ck.seed)).data)) := by
  show (normalizeRoute ck.route ++ ":" ++ normalizeParams ck.params ++ ":" ++
      defaultScenario ck.scenario ++ ":" ++ natToString (defaultSeed ck.seed)).data = _
  simp [String.data_append, List.append_assoc]

theorem generateKey_eq_iff (k1 k2 : CacheKey)
    (h1 : ':' ∉ (normalizeRoute k1.route).data)
    (h2 : ':' ∉ (normalizeRoute k2.route).data) :
    generateKey k1 = generateKey k2 ↔
      (normalizeRoute k1.route = normalizeRoute k2.route ∧
        normalizeParams k1.params = normalizeParams k2.params ∧
        defaultScenario k1.scenario = defaultScenario k2.scenario ∧
        defaultSeed k1.seed = defaultSeed k2.seed) := by
  constructor
  · intro h
    have hd := congrArg String.data h
    rw [generateKey_data, generateKey_data] at hd
    obtain ⟨hroute, hrest⟩ := append_colon_inj _ h1 h2 hd
    obtain ⟨hparams, hrest2⟩ := append_colon_inj _
      (colon_not_mem_normalizeParams k1.params)
      (colon_not_mem_normalizeParams k2.params) hrest
    have hrev := congrArg List.reverse hrest2
    simp only [List.reverse_append, List.reverse_cons, List.append_assoc,
      List.singleton_append] at hrev
    obtain ⟨hseedrev, hscenrev⟩ := append_colon_inj _
      (fun m => colon_not_mem_natToString (defaultSeed k1.seed) (List.mem_reverse.mp m))
      (fun m => colon_not_mem_natToString (defaultSeed k2.seed) (List.mem_reverse.mp m))
      hrev
    refine ⟨string_data_inj hroute, string_data_inj hparams,
      string_data_inj (List.reverse_inj.mp hscenrev),
      natToString_inj (string_data_inj (List.reverse_inj.mp hseedrev))⟩
  · intro ⟨e1, e2, e3, e4⟩
    unfold generateKey
    rw [e1, e2, e3, e4]

theorem mapFind_evictLRU_none {α : Type} (k : String) (now : Nat)
    {st : ResponseCache α} (h : mapFind k st.entries = none) :
    mapFind k (ResponseCache.evictLRU now st).entries = none := by
  unfold ResponseCache.evictLRU
  split
  · exact mapFind_eq_none_of_not_mem_keys fun m =>
      not_mem_keys_of_mapFind_eq_none h ((keys_mapDelete_sublist _ _).subset m)
  · exact h

/-! ## Claim C2 — cache-key coherency across the scenario dimension -/

/-- Claim C2, counterexample: (a) the falsy defaulting `scenario || 'baseline'`
and `seed || 42` maps the empty scenario name with seed 0 and the scenario
`baseline` with seed 42 to one cache key, so two requests that differ in
scenario name and seed share an entry, and a `get` for one scenario returns
data stored by the other — not a guaranteed miss; (b) the `:`-joined key is
ambiguous: a route ending in `:` and a scenario starting with `:` collide
with a plain route and scenario. -/
theorem claim_C2_counterexample :
    (generateKey ⟨"/r", "", "", 0⟩ = generateKey ⟨"/r", "", "baseline", 42⟩ ∧
      ("" : String) ≠ "baseline" ∧ (0 : Nat) ≠ 42 ∧
      (ResponseCache.get ⟨"/r", "", "baseline", 42⟩ 1
        (ResponseCache.set ⟨"/r", "", "", 0⟩ (7 : Nat) none 1 emptyNatCache)).1 =
        some 7) ∧
    (generateKey ⟨"/x", "", ":c", 1⟩ = generateKey ⟨"/x:", "", "c", 1⟩ ∧
      ("/x" : String) ≠ "/x:" ∧ (":c" : String) ≠ "c") := by
  refine ⟨⟨?_, ?_, ?_, ?_⟩, ?_, ?_, ?_⟩ <;> decide

/-- Claim C2 as amended: provided the two normalized routes contain no `:`
separator, two requests map to the same cache key exactly when canonical
route, canonical params, defaulted scenario name (`'' ↦ 'baseline'`) and
defaulted seed (`0 ↦ 42`) all agree; and whenever the defaulted scenario
names or defaulted seeds differ, a `get` for one request after a `set` of
the other (into a cache not already holding the first key) is a guaranteed
miss. -/
theorem claim_C2_amended {α : Type} (k1 k2 : CacheKey)
    (h1 : ':' ∉ (normalizeRoute k1.route).data)
    (h2 : ':' ∉ (normalizeRoute k2.route).data) :
    (generateKey k1 = generateKey k2 ↔
      (normalizeRoute k1.route = normalizeRoute k2.route ∧
        normalizeParams k1.params = normalizeParams k2.params ∧
        defaultScenario k1.scenario = defaultScenario k2.scenario ∧
        defaultSeed k1.seed = defaultSeed k2.seed)) ∧
    (defaultScenario k1.scenario ≠ defaultScenario k2.scenario ∨
        defaultSeed k1.seed ≠ defaultSeed k2.seed →
      ∀ (data : α) (ttlMs : Option Nat) (now tGet : Nat) (st : ResponseCache α),
        mapFind (generateKey k2) st.entries = none →
        (ResponseCache.get k2 tGet (ResponseCache.set k1 data ttlMs now st)).1 = none) := by
  have hiff := generateKey_eq_iff k1 k2 h1 h2
  refine ⟨hiff, ?_⟩
  intro hdiff data ttlMs now tGet st habsent
  have hne : generateKey k2 ≠ generateKey k1 := by
    intro he
    rcases hdiff with hd | hd
    · exact hd (hiff.mp he.symm).2.2.1
    · exact hd (hiff.mp he.symm).2.2.2
  have habs2 : mapFind (generateKey k2)
      (ResponseCache.set k1 data ttlMs now st).entries = none := by
    rw [ResponseCache.set_entries, mapFind_mapSet_ne _ _ hne]
    by_cases hc : st.entries.length ≥ st.maxEntries
    · rw [if_pos hc]
      exact mapFind_evictLRU_none _ now habsent
    · rw [if_neg hc]
      exact habsent
  rw [ResponseCache.get_eq_of_absent _ _ _ habs2]

/-- Witness for the amended claim C2: two requests differing only in
scenario name (`s1` versus `s2`) produce different keys, and a `get` for one
after a `set` of the other misses. -/
theorem claim_C2_witness :
    (¬ (generateKey ⟨"/a", "", "s1", 1⟩ = generateKey ⟨"/a", "", "s2", 1⟩ ↔ True)) ∧
    (ResponseCache.get ⟨"/a", "", "s2", 1⟩ 5
      (ResponseCache.set ⟨"/a", "", "s1", 1⟩ (7 : Nat) none 5 emptyNatCache)).1 = none :=
  ⟨fun hc => by
      have hiff := (claim_C2_amended (α := Nat) ⟨"/a", "", "s1", 1⟩ ⟨"/a", "", "s2", 1⟩
        (by decide) (by decide)).1
      have hcomp := hiff.mp (hc.mpr trivial)
      exact absurd hcomp.2.2.1 (by decide),
    (claim_C2_amended (α := Nat) ⟨"/a", "", "s1", 1⟩ ⟨"/a", "", "s2", 1⟩
        (by decide) (by decide)).2
      (Or.inl (by decide)) 7 none 5 5 emptyNatCache (by decide)⟩

/-! ## Supporting lemmas: split/join/decode roundtrips for query strings -/

theorem splitOnChar_ne_nil (sep : Char) (l : List Char) : splitOnChar sep l ≠ [] := by
  cases l with
  | nil => simp [splitOnChar]
  | cons c rest =>
    rw [splitOnChar]
    by_cases h : c = sep
    · rw [if_pos h]
      simp
    · rw [if_neg h]
      cases hs : splitOnChar sep rest <;> simp

theorem splitOnChar_eq_single {sep : Char} :
    ∀ {l : List Char}, sep ∉ l → splitOnChar sep l = [l] := by
  intro l
  induction l with
  | nil => intro h; rfl
  | cons c rest ih =>
    intro h
    simp only [List.mem_cons, not_or] at h
    rw [splitOnChar, if_neg (fun hh => h.1 hh.symm)]
    rw [ih h.2]

theorem splitOnChar_append {sep : Char} :
    ∀ {g : List Char} (rest : List Char), sep ∉ g →
      splitOnChar sep (g ++ sep :: rest) = g :: splitOnChar sep rest := by
  intro g
  induction g with
  | nil =>
    intro rest h
    rw [List.nil_append, splitOnChar, if_pos rfl]
  | cons c g' ih =>
    intro rest h
    simp only [List.mem_cons, not_or] at h
    rw [List.cons_append, splitOnChar, if_neg (fun hh => h.1 hh.symm), ih rest h.2]

theorem joinWithChar_splitOnChar (sep : Char) :
    ∀ (l : List Char), joinWithChar sep (splitOnChar sep l) = l := by
  intro l
  induction l with
  | nil => rfl
  | cons c rest ih =>
    rw [splitOnChar]
    by_cases h : c = sep
    · rw [if_pos h]
      cases hs : splitOnChar sep rest with
      | nil => exact absurd hs (splitOnChar_ne_nil sep rest)
      | cons g gs =>
        have hj : joinWithChar sep ([] :: g :: gs) =
            [] ++ sep :: joinWithChar sep (g :: gs) := rfl
        rw [hj, List.nil_append, h]
        rw [hs] at ih
        rw [ih]
    · rw [if_neg h]
      cases hs : splitOnChar sep rest with
      | nil => exact absurd hs (splitOnChar_ne_nil sep rest)
      | cons g gs =>
        rw [hs] at ih
        cases gs with
        | nil =>
          rw [joinWithChar]
          rw [joinWithChar] at ih
          rw [ih]
        | cons g2 gs2 =>
          have hj : joinWithChar sep ((c :: g) :: g2 :: gs2) =
              (c :: g) ++ sep :: joinWithChar sep (g2 :: gs2) := rfl
          have hj2 : joinWithChar sep (g :: g2 :: gs2) =
              g ++ sep :: joinWithChar sep (g2 :: gs2) := rfl
          rw [hj, List.cons_append]
          rw [hj2] at ih
          rw [ih]

theorem splitOnChar_joinWithChar {sep : Char} :
    ∀ {gs : List (List Char)}, gs ≠ [] → (∀ g ∈ gs, sep ∉ g) →
      splitOnChar sep (joinWithChar sep gs) = gs := by
  intro gs
  induction gs with
  | nil => intro h; exact absurd rfl h
  | cons g rest ih =>
    intro _ hall
    cases rest with
    | nil =>
      rw [joinWithChar]
      exact splitOnChar_eq_single (hall g (List.mem_cons_self _ _))
    | cons g2 rest2 =>
      have hj : joinWithChar sep (g :: g2 :: rest2) =
          g ++ sep :: joinWithChar sep (g2 :: rest2) := rfl
      rw [hj, splitOnChar_append _ (hall g (List.mem_cons_self _ _))]
      rw [ih (by simp) (fun g' hg' => hall g' (List.mem_cons_of_mem _ hg'))]

theorem formDecodeChars_id :
    ∀ (l : List Char), (∀ c ∈ l, c ≠ '%' ∧ c ≠ '+') → formDecodeChars l = l := by
  intro l
  induction l with
  | nil => intro h; rfl
  | cons c rest ih =>
    intro h
    have hc := h c (List.mem_cons_self _ _)
    have hrest := fun c' hc' => h c' (List.mem_cons_of_mem _ hc')
    unfold formDecodeChars
    split
    all_goals rename_i heq
    · exact absurd heq (by simp)
    · injection heq with hch ht
      exact absurd hch hc.2
    · injection heq with hch ht
      exact absurd hch hc.1
    · injection heq with hch ht
      subst hch
      subst ht
      rw [ih hrest]

/-! ## Supporting lemmas: parsing a plain query built from pairs -/

theorem isPlainQueryChar_spec {c : Char} (h : isPlainQueryChar c = true) :
    c ≠ '&' ∧ c ≠ '=' ∧ c ≠ '%' ∧ c ≠ '+' ∧ c ≠ '?' := by
  refine ⟨?_, ?_, ?_, ?_, ?_⟩ <;> (intro hc; rw [hc] at h; exact absurd h (by decide))

theorem parsePairSeg_plain (k v : List Char)
    (hk : ∀ c ∈ k, isPlainQueryChar c) (hv : ∀ c ∈ v, isPlainQueryChar c) :
    parsePairSeg (k ++ '=' :: v) = (k, v) := by
  have hkeq : '=' ∉ k := fun m => (isPlainQueryChar_spec (hk _ m)).2.1 rfl
  unfold parsePairSeg
  rw [splitOnChar_append _ hkeq]
  show (formDecodeChars k, formDecodeChars (joinWithChar '=' (splitOnChar '=' v))) = (k, v)
  rw [joinWithChar_splitOnChar,
    formDecodeChars_id k (fun c m => ⟨(isPlainQueryChar_spec (hk c m)).2.2.1,
      (isPlainQueryChar_spec (hk c m)).2.2.2.1⟩),
    formDecodeChars_id v (fun c m => ⟨(isPlainQueryChar_spec (hv c m)).2.2.1,
      (isPlainQueryChar_spec (hv c m)).2.2.2.1⟩)]

theorem mem_rawQueryOfPairs {c : Char} {ps : List (List Char × List Char)}
    (h : c ∈ rawQueryOfPairs ps) :
    c = '&' ∨ c = '=' ∨ ∃ p ∈ ps, c ∈ p.1 ∨ c ∈ p.2 := by
  rcases mem_joinWithChar h with h | ⟨g, hg, hc⟩
  · exact Or.inl h
  · obtain ⟨p, hp, rfl⟩ := List.mem_map.mp hg
    rcases List.mem_append.mp hc with hc | hc
    · exact Or.inr (Or.inr ⟨p, hp, Or.inl hc⟩)
    · rcases List.mem_cons.mp hc with rfl | hc
      · exact Or.inr (Or.inl rfl)
      · exact Or.inr (Or.inr ⟨p, hp, Or.inr hc⟩)

theorem rawQueryOfPairs_ne_nil (p : List Char × List Char)
    (rest : List (List Char × List Char)) : rawQueryOfPairs (p :: rest) ≠ [] := by
  unfold rawQueryOfPairs
  cases rest with
  | nil =>
    show joinWithChar '&' [p.1 ++ '=' :: p.2] ≠ []
    rw [joinWithChar]
    simp
  | cons q rest2 =>
    intro h
    have hj : joinWithChar '&' ((p.1 ++ '=' :: p.2) ::
        ((q :: rest2).map fun p => p.1 ++ '=' :: p.2)) =
        (p.1 ++ '=' :: p.2) ++ '&' ::
          joinWithChar '&' ((q :: rest2).map fun p => p.1 ++ '=' :: p.2) := rfl
    rw [List.map_cons, List.map_cons] at h
    rw [List.map_cons] at hj
    rw [hj] at h
    simp at h

theorem parseQueryPairs_raw (ps : List (List Char × List Char)) (hne : ps ≠ [])
    (hplain : ∀ p ∈ ps, (∀ c ∈ p.1, isPlainQueryChar c) ∧ (∀ c ∈ p.2, isPlainQueryChar c)) :
    parseQueryPairs ⟨rawQueryOfPairs ps⟩ = ps := by
  have hqm : '?' ∉ rawQueryOfPairs ps := by
    intro h
    rcases mem_rawQueryOfPairs h with h | h | ⟨p, hp, hc⟩
    · exact absurd h (by decide)
    · exact absurd h (by decide)
    · rcases hc with hc | hc
      · exact (isPlainQueryChar_spec ((hplain p hp).1 _ hc)).2.2.2.2 rfl
      · exact (isPlainQueryChar_spec ((hplain p hp).2 _ hc)).2.2.2.2 rfl
  have hamp : ∀ g ∈ ps.map fun p => p.1 ++ '=' :: p.2, '&' ∉ g := by
    intro g hg hm
    obtain ⟨p, hp, rfl⟩ := List.mem_map.mp hg
    rcases List.mem_append.mp hm with hm | hm
    · exact (isPlainQueryChar_spec ((hplain p hp).1 _ hm)).1 rfl
    · rcases List.mem_cons.mp hm with he | hm
      · exact absurd he (by decide)
      · exact (isPlainQueryChar_spec ((hplain p hp).2 _ hm)).1 rfl
  have hmapne : ps.map (fun p => p.1 ++ '=' :: p.2) ≠ [] := by
    cases ps with
    | nil => exact absurd rfl hne
    | cons p rest => simp
  unfold parseQueryPairs
  split
  · rename_i rest heq
    have hraw : rawQueryOfPairs ps = '?' :: rest := heq
    exact absurd (by rw [hraw]; exact List.mem_cons_self _ _) hqm
  · rename_i heq
    show ((splitOnChar '&' (rawQueryOfPairs ps)).filter (· ≠ [])).map parsePairSeg = ps
    rw [show rawQueryOfPairs ps = joinWithChar '&' (ps.map fun p => p.1 ++ '=' :: p.2) from rfl,
      splitOnChar_joinWithChar hmapne hamp]
    have hfilter : (ps.map fun p => p.1 ++ '=' :: p.2).filter (· ≠ []) =
        ps.map fun p => p.1 ++ '=' :: p.2 := by
      rw [List.filter_eq_self]
      intro g hg
      obtain ⟨p, hp, rfl⟩ := List.mem_map.mp hg
      simp
    rw [hfilter, List.map_map]
    have : ∀ p ∈ ps, (parsePairSeg ∘ fun p => p.1 ++ '=' :: p.2) p = id p := by
      intro p hp
      show parsePairSeg (p.1 ++ '=' :: p.2) = p
      rw [parsePairSeg_plain p.1 p.2 (hplain p hp).1 (hplain p hp).2]
    rw [List.map_congr_left this, List.map_id]

/-! ## Supporting lemmas: permutation-stability of the sorted rebuild -/

theorem find?_key_eq_some_of {ps : List (List Char × List Char)}
    {x : List Char × List Char} {k : List Char}
    (hnodup : (ps.map Prod.fst).Nodup) (hmem : x ∈ ps) (hk : x.1 = k) :
    ps.find? (fun p => p.1 = k) = some x := by
  induction ps with
  | nil => simp at hmem
  | cons p rest ih =>
    simp only [List.map_cons, List.nodup_cons] at hnodup
    rcases List.mem_cons.mp hmem with rfl | hmem
    · exact List.find?_cons_of_pos _ (by simp [hk])
    · have hne : ¬ (p.1 = k) := by
        intro he
        exact hnodup.1 (by
          rw [he, ← hk]
          exact List.mem_map_of_mem Prod.fst hmem)
      rw [List.find?_cons_of_neg _ (by simp [hne])]
      exact ih hnodup.2 hmem

theorem find?_key_perm {ps1 ps2 : List (List Char × List Char)}
    (hperm : ps1.Perm ps2) (hnodup : (ps1.map Prod.fst).Nodup) (k : List Char) :
    ps1.find? (fun p => p.1 = k) = ps2.find? (fun p => p.1 = k) := by
  cases h1 : ps1.find? (fun p => p.1 = k) with
  | none =>
    rw [List.find?_eq_none] at h1
    rw [eq_comm, List.find?_eq_none]
    intro x hx
    exact h1 x (hperm.mem_iff.mpr hx)
  | some x =>
    have hx1 : x ∈ ps1 := List.mem_of_find?_eq_some h1
    have hk : x.1 = k := by
      have := List.find?_some h1
      simpa using this
    rw [eq_comm]
    exact find?_key_eq_some_of ((hperm.map Prod.fst).nodup_iff.mp hnodup)
      (hperm.mem_iff.mp hx1) hk

theorem sortQueryPairs_perm {ps1 ps2 : List (List Char × List Char)}
    (hperm : ps1.Perm ps2) (hnodup : (ps1.map Prod.fst).Nodup) :
    sortQueryPairs ps1 = sortQueryPairs ps2 := by
  unfold sortQueryPairs
  have hkeys : List.insertionSort (· ≤ ·) (ps1.map Prod.fst) =
      List.insertionSort (· ≤ ·) (ps2.map Prod.fst) :=
    List.eq_of_perm_of_sorted
      ((List.perm_insertionSort _ _).trans
        ((hperm.map _).trans (List.perm_insertionSort _ _).symm))
      (List.sorted_insertionSort _ _) (List.sorted_insertionSort _ _)
  have hfun : (fun (acc : List (List Char × List Char)) k =>
      mapSet k (getFirstValue k ps1) acc) =
      (fun acc k => mapSet k (getFirstValue k ps2) acc) := by
    funext acc k
    unfold getFirstValue
    rw [find?_key_perm hperm hnodup k]
  rw [hkeys, hfun]

/-! ## Claim C7 — permutation invariance of parameter canonicalization

Sorting makes the canonical form order-independent only when each key occurs
once: for a duplicated key the loop stores `urlParams.get(key)`, the *first*
value of that key in the original order, so two permutations that reorder
duplicate keys canonicalize differently. -/

/-- Claim C7, counterexample: `a=1&a=2` and `a=2&a=1` are `&`-joins of
permuted lists of the same `key=value` pairs, yet their canonical forms
differ (`a=1` versus `a=2`), and the two requests get different cache
keys. -/
theorem claim_C7_counterexample :
    (⟨rawQueryOfPairs [(['a'], ['1']), (['a'], ['2'])]⟩ : String) = "a=1&a=2" ∧
    (⟨rawQueryOfPairs [(['a'], ['2']), (['a'], ['1'])]⟩ : String) = "a=2&a=1" ∧
    List.Perm [(['a'], ['1']), (['a'], ['2'])] [(['a'], ['2']), (['a'], ['1'])] ∧
    normalizeParams "a=1&a=2" ≠ normalizeParams "a=2&a=1" ∧
    generateKey ⟨"/r", "a=1&a=2", "s", 1⟩ ≠ generateKey ⟨"/r", "a=2&a=1", "s", 1⟩ := by
  refine ⟨?_, ?_, ?_, ?_, ?_⟩ <;> decide

/-- Claim C7 as amended: for parameter strings assembled from permutations
of the same `key=value` pairs whose keys are pairwise distinct (and whose
characters are plain: no separator, escape, or leading-`?` characters), the
canonical form — and hence the whole cache key — is identical; with
duplicated keys the first occurrence's value wins, so permutation invariance
can fail (see the counterexample). The unparsable-fallback clause is
vacuous: parsing never fails. -/
theorem claim_C7_amended (ps1 ps2 : List (List Char × List Char))
    (hperm : ps1.Perm ps2)
    (hnodup : (ps1.map Prod.fst).Nodup)
    (hplain : ∀ p ∈ ps1, (∀ c ∈ p.1, isPlainQueryChar c) ∧ (∀ c ∈ p.2, isPlainQueryChar c)) :
    normalizeParams ⟨rawQueryOfPairs ps1⟩ = normalizeParams ⟨rawQueryOfPairs ps2⟩ ∧
    ∀ (route scenario : String) (seed : Nat),
      generateKey ⟨route, ⟨rawQueryOfPairs ps1⟩, scenario, seed⟩ =
        generateKey ⟨route, ⟨rawQueryOfPairs ps2⟩, scenario, seed⟩ := by
  have hplain2 : ∀ p ∈ ps2, (∀ c ∈ p.1, isPlainQueryChar c) ∧
      (∀ c ∈ p.2, isPlainQueryChar c) :=
    fun p hp => hplain p (hperm.mem_iff.mpr hp)
  have hmain : normalizeParams ⟨rawQueryOfPairs ps1⟩ =
      normalizeParams ⟨rawQueryOfPairs ps2⟩ := by
    cases ps1 with
    | nil =>
      have h2 : ps2 = [] := hperm.symm.eq_nil
      rw [h2]
    | cons p rest =>
      cases h2 : ps2 with
      | nil => exact absurd (h2 ▸ hperm).eq_nil (by simp)
      | cons q rest2 =>
        rw [← h2]
        have hne1 : (⟨rawQueryOfPairs (p :: rest)⟩ : String) ≠ "" := by
          intro h
          exact rawQueryOfPairs_ne_nil p rest (congrArg String.data h)
        have hne2 : (⟨rawQueryOfPairs ps2⟩ : String) ≠ "" := by
          intro h
          rw [h2] at h
          exact rawQueryOfPairs_ne_nil q rest2 (congrArg String.data h)
        unfold normalizeParams
        rw [if_neg hne1, if_neg hne2]
        rw [parseQueryPairs_raw (p :: rest) (by simp) hplain,
          parseQueryPairs_raw ps2 (by rw [h2]; simp) hplain2]
        rw [sortQueryPairs_perm hperm hnodup]
  refine ⟨hmain, fun route scenario seed => ?_⟩
  unfold generateKey
  simp only
  rw [hmain]

/-- Witness for the amended claim C7: `b=2&a=1` and `a=1&b=2` (as pair
lists) canonicalize identically. -/
theorem claim_C7_witness :
    normalizeParams ⟨rawQueryOfPairs [(['b'], ['2']), (['a'], ['1'])]⟩ =
      normalizeParams ⟨rawQueryOfPairs [(['a'], ['1']), (['b'], ['2'])]⟩ :=
  (claim_C7_amended [(['b'], ['2']), (['a'], ['1'])] [(['a'], ['1']), (['b'], ['2'])]
    (by decide) (by decide) (by decide)).1

/-! ## Supporting lemmas: branch equations of `executeFixtureRequest` -/

theorem executeFixtureRequest_hit {α : Type} (pm : PMState α) (scenario : Scenario)
    (fixture : PrimaryBehavior α) (passthrough : Except String α)
    (opts : ExecOptions) (now : Nat) (v : α)
    (h : (efrCachePhase pm opts (efrCacheKey scenario opts) now).1 = some v) :
    executeFixtureRequest pm scenario fixture passthrough opts now =
      (.ok { result := v, fromCache := true, timedOut := false,
             source := .cache, latencyMs := 0 },
       { pm with cache := (efrCachePhase pm opts (efrCacheKey scenario opts) now).2 }) := by
  simp only [executeFixtureRequest, h]

theorem executeFixtureRequest_fetchErr {α : Type} (pm : PMState α) (scenario : Scenario)
    (fixture : PrimaryBehavior α) (passthrough : Except String α)
    (opts : ExecOptions) (now : Nat) (e : String)
    (hphase : (efrCachePhase pm opts (efrCacheKey scenario opts) now).1 = none)
    (hout : (fetchWithTimeout pm.config.timeout pm.timeoutMgr fixture
        (some passthrough)).1.out = .error e) :
    executeFixtureRequest pm scenario fixture passthrough opts now =
      (.error e,
       { pm with cache := (efrCachePhase pm opts (efrCacheKey scenario opts) now).2,
                 timeoutMgr := (fetchWithTimeout pm.config.timeout pm.timeoutMgr fixture
                   (some passthrough)).2 }) := by
  simp only [executeFixtureRequest, hphase, hout]

theorem executeFixtureRequest_fetchOk {α : Type} (pm : PMState α) (scenario : Scenario)
    (fixture : PrimaryBehavior α) (passthrough : Except String α)
    (opts : ExecOptions) (now : Nat) (o : FetchOutcome α)
    (hphase : (efrCachePhase pm opts (efrCacheKey scenario opts) now).1 = none)
    (hout : (fetchWithTimeout pm.config.timeout pm.timeoutMgr fixture
        (some passthrough)).1.out = .ok o) :
    executeFixtureRequest pm scenario fixture passthrough opts now =
      (.ok { result := o.result, fromCache := false, timedOut := o.timedOut,
             source := if o.source = .fixture then ExecSource.fixture else .passthrough,
             latencyMs := (fetchWithTimeout pm.config.timeout pm.timeoutMgr fixture
               (some passthrough)).1.durationMs },
       { pm with
          cache :=
            (if o.timedOut then
              ResponseCache.updateMetricsTimeoutHits
                ((ResponseCache.getStats
                  (if pm.config.cache.enabled ∧ o.source = .fixture ∧ o.timedOut = false ∧
                      opts.enableCache ≠ some false
                   then ResponseCache.set (efrCacheKey scenario opts) o.result opts.ttlMs
                     (now + (fetchWithTimeout pm.config.timeout pm.timeoutMgr fixture
                       (some passthrough)).1.durationMs)
                     (efrCachePhase pm opts (efrCacheKey scenario opts) now).2
                   else (efrCachePhase pm opts (efrCacheKey scenario opts) now).2)).timeoutHits + 1)
                (if pm.config.cache.enabled ∧ o.source = .fixture ∧ o.timedOut = false ∧
                    opts.enableCache ≠ some false
                 then ResponseCache.set (efrCacheKey scenario opts) o.result opts.ttlMs
                   (now + (fetchWithTimeout pm.config.timeout pm.timeoutMgr fixture
                     (some passthrough)).1.durationMs)
                   (efrCachePhase pm opts (efrCacheKey scenario opts) now).2
                 else (efrCachePhase pm opts (efrCacheKey scenario opts) now).2)
             else
              (if pm.config.cache.enabled ∧ o.source = .fixture ∧ o.timedOut = false ∧
                  opts.enableCache ≠ some false
               then ResponseCache.set (efrCacheKey scenario opts) o.result opts.ttlMs
                 (now + (fetchWithTimeout pm.config.timeout pm.timeoutMgr fixture
                   (some passthrough)).1.durationMs)
                 (efrCachePhase pm opts (efrCacheKey scenario opts) now).2
               else (efrCachePhase pm opts (efrCacheKey scenario opts) now).2)),
          timeoutMgr := (fetchWithTimeout pm.config.timeout pm.timeoutMgr fixture
            (some passthrough)).2 }) := by
  simp only [executeFixtureRequest, hphase, hout]

/-! ## Supporting lemmas: metric bookkeeping of the cache operations -/

theorem ResponseCache.get_metrics_of_some {α : Type} {ck : CacheKey} {now : Nat}
    {st : ResponseCache α} {v : α} (h : (ResponseCache.get ck now st).1 = some v) :
    (ResponseCache.get ck now st).2.metrics =
      { st.metrics with cacheHits := st.metrics.cacheHits + 1 } := by
  cases hf : mapFind (generateKey ck) st.entries with
  | none => rw [ResponseCache.get_eq_of_absent _ _ _ hf] at h; simp at h
  | some e =>
    rw [ResponseCache.get_eq_of_found _ _ _ _ hf] at h ⊢
    by_cases hexp : now - e.timestamp > e.ttl
    · rw [if_pos hexp] at h; simp at h
    · rw [if_neg hexp]

theorem ResponseCache.get_metrics_of_none {α : Type} {ck : CacheKey} {now : Nat}
    {st : ResponseCache α} (h : (ResponseCache.get ck now st).1 = none) :
    (ResponseCache.get ck now st).2.metrics =
      { st.metrics with cacheMisses := st.metrics.cacheMisses + 1 } := by
  cases hf : mapFind (generateKey ck) st.entries with
  | none => rw [ResponseCache.get_eq_of_absent _ _ _ hf]
  | some e =>
    rw [ResponseCache.get_eq_of_found _ _ _ _ hf] at h ⊢
    by_cases hexp : now - e.timestamp > e.ttl
    · rw [if_pos hexp]
    · rw [if_neg hexp] at h; simp at h

theorem ResponseCache.get_none_mapFind {α : Type} {ck : CacheKey} {now : Nat}
    {st : ResponseCache α} (hnodup : (st.entries.map Prod.fst).Nodup)
    (h : (ResponseCache.get ck now st).1 = none) :
    mapFind (generateKey ck) (ResponseCache.get ck now st).2.entries = none := by
  cases hf : mapFind (generateKey ck) st.entries with
  | none => rw [ResponseCache.get_eq_of_absent _ _ _ hf]; exact hf
  | some e =>
    rw [ResponseCache.get_eq_of_found _ _ _ _ hf] at h ⊢
    by_cases hexp : now - e.timestamp > e.ttl
    · rw [if_pos hexp]
      exact mapFind_mapDelete_self _ hnodup
    · rw [if_neg hexp] at h; simp at h

theorem ResponseCache.updateMetricsTimeoutHits_entries {α : Type} (n : Nat)
    (st : ResponseCache α) :
    (ResponseCache.updateMetricsTimeoutHits n st).entries = st.entries := rfl

/-! ## Supporting lemmas: the timeout counter matches the reported outcome -/

theorem fetchCore_ok_timeoutCounted {α : Type} (cfg : TimeoutBudget)
    (primary : PrimaryBehavior α) (fallback : Option (Except String α)) :
    ∀ o : FetchOutcome α, (fetchCore cfg primary fallback).out = .ok o →
      (fetchCore cfg primary fallback).timeoutCounted = o.timedOut := by
  simp only [fetchCore]
  split
  · intro o h
    injection h with h2
    rw [← h2]
  · split
    · split
      · intro o h
        injection h with h2
        rw [← h2]
      · intro o h
        exact absurd h (by simp)
      · intro o h
        exact absurd h (by simp)
      · intro o h
        exact absurd h (by simp)
    · intro o h
      exact absurd h (by simp)

/-! ## Claim C4 — a cache hit bypasses the Timeout Executor -/

/-- Claim C4: when caching is enabled globally and for the call and the
computed key holds a valid (unexpired) entry, `executeFixtureRequest`
returns immediately with `source = cache`, `fromCache = true`,
`timedOut = false`, with latency covering only the lookup; the result and
the final state are the same for every fixture and passthrough operation,
and the timeout manager's counters are untouched — the Timeout Executor and
both supplied operations are never invoked, so a cache hit can never count
as a timeout no matter how slow the supplied fixture operation would be. -/
theorem claim_C4 {α : Type} (pm : PMState α) (scenario : Scenario)
    (opts : ExecOptions) (now : Nat) (v : α)
    (hen : cacheEnabledForCall pm.config opts = true)
    (hhit : (ResponseCache.get (efrCacheKey scenario opts) now pm.cache).1 = some v) :
    ∀ (fixture : PrimaryBehavior α) (passthrough : Except String α),
      executeFixtureRequest pm scenario fixture passthrough opts now =
        (.ok { result := v, fromCache := true, timedOut := false,
               source := .cache, latencyMs := 0 },
         { pm with cache := (ResponseCache.get (efrCacheKey scenario opts) now pm.cache).2 }) := by
  intro fixture passthrough
  have hphase1 : (efrCachePhase pm opts (efrCacheKey scenario opts) now).1 = some v := by
    unfold efrCachePhase
    rw [if_pos hen, hhit]
  have hphase2 : (efrCachePhase pm opts (efrCacheKey scenario opts) now).2 =
      (ResponseCache.get (efrCacheKey scenario opts) now pm.cache).2 := by
    unfold efrCachePhase
    rw [if_pos hen]
  rw [executeFixtureRequest_hit pm scenario fixture passthrough opts now v hphase1, hphase2]

/-- Witness for claim C4: a pre-populated key is served from the cache with
`source = cache` even though the supplied fixture operation would hang
forever and the passthrough would fail. -/
theorem claim_C4_witness :
    (executeFixtureRequest
      { PMState.init (α := Nat) defaultPerformanceConfig 0 with
          cache := ResponseCache.set ⟨"/api/x", "", "s", 1⟩ (7 : Nat) none 10
            (PMState.init (α := Nat) defaultPerformanceConfig 0).cache }
      ⟨"s", 1⟩ .hangs (.error "slow") ⟨"/api/x", none, none, none, none⟩ 20).1 =
      .ok { result := 7, fromCache := true, timedOut := false,
            source := .cache, latencyMs := 0 } :=
  congrArg Prod.fst (claim_C4 _ ⟨"s", 1⟩ ⟨"/api/x", none, none, none, none⟩ 20 7
    (by decide) (by decide) .hangs (.error "slow"))

/-! ## Claim C10 — the error path leaves the cache as the lookup left it -/

/-- Claim C10: whenever `executeFixtureRequest` ends by propagating an
error, the final cache state (entries and metrics alike) is exactly the
state left by the initial cache-lookup phase — no entry is inserted,
replaced, or removed under the computed key on the error path. -/
theorem claim_C10 {α : Type} (pm : PMState α) (scenario : Scenario)
    (fixture : PrimaryBehavior α) (passthrough : Except String α)
    (opts : ExecOptions) (now : Nat) (e : String)
    (herr : (executeFixtureRequest pm scenario fixture passthrough opts now).1 = .error e) :
    (executeFixtureRequest pm scenario fixture passthrough opts now).2.cache =
      (efrCachePhase pm opts (efrCacheKey scenario opts) now).2 := by
  cases hphase : (efrCachePhase pm opts (efrCacheKey scenario opts) now).1 with
  | some v =>
    rw [executeFixtureRequest_hit pm scenario fixture passthrough opts now v hphase] at herr
    simp at herr
  | none =>
    cases hout : (fetchWithTimeout pm.config.timeout pm.timeoutMgr fixture
        (some passthrough)).1.out with
    | ok o =>
      rw [executeFixtureRequest_fetchOk pm scenario fixture passthrough opts now o
        hphase hout] at herr
      simp at herr
    | error e2 =>
      rw [executeFixtureRequest_fetchErr pm scenario fixture passthrough opts now e2
        hphase hout]

/-- Witness for claim C10: a primary rejection with a non-timeout message
propagates, and the cache equals the post-lookup state. -/
theorem claim_C10_witness :
    (executeFixtureRequest (PMState.init (α := Nat) defaultPerformanceConfig 0)
      ⟨"s", 1⟩ (.rejects 3 "boom") (.ok 9) ⟨"/api/x", none, none, none, none⟩ 50).2.cache =
      (efrCachePhase (PMState.init (α := Nat) defaultPerformanceConfig 0)
        ⟨"/api/x", none, none, none, none⟩
        (efrCacheKey ⟨"s", 1⟩ ⟨"/api/x", none, none, none, none⟩) 50).2 :=
  claim_C10 _ _ _ _ _ _ "boom" (by decide)

/-! ## Claim C3 — cache writes happen exactly for untimed fixture outcomes -/

theorem executeFixtureRequest_totalRequests_of_absent {α : Type} (pm : PMState α)
    (scenario : Scenario) (fixture : PrimaryBehavior α) (passthrough : Except String α)
    (opts : ExecOptions) (now : Nat)
    (habs : mapFind (generateKey (efrCacheKey scenario opts)) pm.cache.entries = none) :
    (executeFixtureRequest pm scenario fixture passthrough opts now).2.timeoutMgr.totalRequests =
      pm.timeoutMgr.totalRequests + 1 := by
  have hphase : (efrCachePhase pm opts (efrCacheKey scenario opts) now).1 = none := by
    unfold efrCachePhase
    by_cases hen : cacheEnabledForCall pm.config opts = true
    · rw [if_pos hen, ResponseCache.get_eq_of_absent _ _ _ habs]
    · rw [if_neg hen]
  cases hout : (fetchWithTimeout pm.config.timeout pm.timeoutMgr fixture
      (some passthrough)).1.out with
  | ok o =>
    rw [executeFixtureRequest_fetchOk pm scenario fixture passthrough opts now o hphase hout]
    rfl
  | error e =>
    rw [executeFixtureRequest_fetchErr pm scenario fixture passthrough opts now e hphase hout]
    rfl

/-- Claim C3: for every completed `executeFixtureRequest` that did not come
from the cache, the resulting entries are the post-lookup entries with a
write performed exactly when the outcome's source is `fixture`, it did not
time out, and caching is enabled both globally and for the call; in
particular a passthrough (timed-out) outcome writes nothing, the computed
key stays absent, and a subsequent identical request misses and attempts
the fixture path again (its timeout-manager request counter increments). -/
theorem claim_C3 {α : Type} (pm : PMState α) (scenario : Scenario)
    (fixture : PrimaryBehavior α) (passthrough : Except String α)
    (opts : ExecOptions) (now : Nat) (out : ExecResult α)
    (hnodup : (pm.cache.entries.map Prod.fst).Nodup)
    (hok : (executeFixtureRequest pm scenario fixture passthrough opts now).1 = .ok out)
    (hnc : out.fromCache = false) :
    ((executeFixtureRequest pm scenario fixture passthrough opts now).2.cache.entries =
      if pm.config.cache.enabled ∧ out.source = .fixture ∧ out.timedOut = false ∧
          opts.enableCache ≠ some false
      then (ResponseCache.set (efrCacheKey scenario opts) out.result opts.ttlMs
          (now + out.latencyMs)
          (efrCachePhase pm opts (efrCacheKey scenario opts) now).2).entries
      else (efrCachePhase pm opts (efrCacheKey scenario opts) now).2.entries) ∧
    (out.source = .passthrough → cacheEnabledForCall pm.config opts = true →
      mapFind (generateKey (efrCacheKey scenario opts))
        (executeFixtureRequest pm scenario fixture passthrough opts now).2.cache.entries =
        none ∧
      ∀ (fixture2 : PrimaryBehavior α) (passthrough2 : Except String α) (now2 : Nat),
        (executeFixtureRequest
            (executeFixtureRequest pm scenario fixture passthrough opts now).2
            scenario fixture2 passthrough2 opts now2).2.timeoutMgr.totalRequests =
          (executeFixtureRequest
            pm scenario fixture passthrough opts now).2.timeoutMgr.totalRequests + 1) := by
  cases hphase : (efrCachePhase pm opts (efrCacheKey scenario opts) now).1 with
  | some v =>
    rw [executeFixtureRequest_hit pm scenario fixture passthrough opts now v hphase] at hok
    injection hok with h2
    rw [← h2] at hnc
    simp at hnc
  | none =>
    cases hout : (fetchWithTimeout pm.config.timeout pm.timeoutMgr fixture
        (some passthrough)).1.out with
    | error e =>
      rw [executeFixtureRequest_fetchErr pm scenario fixture passthrough opts now e
        hphase hout] at hok
      simp at hok
    | ok o =>
      rw [executeFixtureRequest_fetchOk pm scenario fixture passthrough opts now o
        hphase hout] at hok
      injection hok with h2
      subst h2
      have hsrcIff : ((if o.source = FetchSource.fixture then ExecSource.fixture
          else ExecSource.passthrough) = ExecSource.fixture) ↔
          o.source = FetchSource.fixture := by
        by_cases h : o.source = FetchSource.fixture <;> simp [h]
      have hcondIff : (pm.config.cache.enabled ∧
          (if o.source = FetchSource.fixture then ExecSource.fixture
            else ExecSource.passthrough) = ExecSource.fixture ∧ o.timedOut = false ∧
          opts.enableCache ≠ some false) ↔
          (pm.config.cache.enabled ∧ o.source = FetchSource.fixture ∧
            o.timedOut = false ∧ opts.enableCache ≠ some false) := by
        rw [hsrcIff]
      have h1 : (executeFixtureRequest pm scenario fixture passthrough opts now).2.cache.entries =
          if pm.config.cache.enabled ∧ o.source = FetchSource.fixture ∧ o.timedOut = false ∧
              opts.enableCache ≠ some false
          then (ResponseCache.set (efrCacheKey scenario opts) o.result opts.ttlMs
              (now + (fetchWithTimeout pm.config.timeout pm.timeoutMgr fixture
                (some passthrough)).1.durationMs)
              (efrCachePhase pm opts (efrCacheKey scenario opts) now).2).entries
          else (efrCachePhase pm opts (efrCacheKey scenario opts) now).2.entries := by
        rw [executeFixtureRequest_fetchOk pm scenario fixture passthrough opts now o
          hphase hout]
        show (if o.timedOut = true then ResponseCache.updateMetricsTimeoutHits _ _
          else _).entries = _
        by_cases ht : o.timedOut = true
        · rw [if_pos ht, ResponseCache.updateMetricsTimeoutHits_entries,
            apply_ite ResponseCache.entries]
        · rw [if_neg ht, apply_ite ResponseCache.entries]
      constructor
      · rw [h1]
        exact (if_congr hcondIff rfl rfl).symm
      · intro hsrc hen
        have ho : o.source = FetchSource.passthrough := by
          cases hs : o.source with
          | fixture => rw [hs] at hsrc; simp at hsrc
          | passthrough => rfl
        have hCfalse : ¬ (pm.config.cache.enabled ∧ o.source = FetchSource.fixture ∧
            o.timedOut = false ∧ opts.enableCache ≠ some false) := by
          intro hcc
          rw [ho] at hcc
          exact absurd hcc.2.1 (by decide)
        have hpostE : (executeFixtureRequest pm scenario fixture passthrough
            opts now).2.cache.entries =
            (efrCachePhase pm opts (efrCacheKey scenario opts) now).2.entries :=
          h1.trans (if_neg hCfalse)
        have hg : (ResponseCache.get (efrCacheKey scenario opts) now pm.cache).1 = none := by
          have hp := hphase
          unfold efrCachePhase at hp
          rwa [if_pos hen] at hp
        have hmid : mapFind (generateKey (efrCacheKey scenario opts))
            (efrCachePhase pm opts (efrCacheKey scenario opts) now).2.entries = none := by
          have h2 : (efrCachePhase pm opts (efrCacheKey scenario opts) now).2 =
              (ResponseCache.get (efrCacheKey scenario opts) now pm.cache).2 := by
            unfold efrCachePhase
            rw [if_pos hen]
          rw [h2]
          exact ResponseCache.get_none_mapFind hnodup hg
        refine ⟨by rw [hpostE]; exact hmid, ?_⟩
        intro fixture2 passthrough2 now2
        apply executeFixtureRequest_totalRequests_of_absent
        rw [hpostE]
        exact hmid

/-- Witness for claim C3: a timed-out request (hanging fixture, passthrough
fallback) leaves the computed key absent from the cache. -/
theorem claim_C3_witness :
    mapFind (generateKey (efrCacheKey ⟨"s", 1⟩ ⟨"/api/x", none, none, none, none⟩))
      (executeFixtureRequest (PMState.init (α := Nat) defaultPerformanceConfig 0)
        ⟨"s", 1⟩ .hangs (.ok 5) ⟨"/api/x", none, none, none, none⟩ 0).2.cache.entries =
      none :=
  ((claim_C3 (PMState.init defaultPerformanceConfig 0) ⟨"s", 1⟩ .hangs (.ok 5)
      ⟨"/api/x", none, none, none, none⟩ 0
      { result := 5, fromCache := false, timedOut := true,
        source := .passthrough, latencyMs := 35 }
      (by decide) (by decide) (by decide)).2 (by decide) (by decide)).1

/-! ## Claim C8 — metric accounting of `executeFixtureRequest`

The code increments the cache's hit/miss counters inside the lookup and the
manager's timeout counter inside the fetch, but it never updates
`passthroughCount` and never folds latency into `averageResponseTime`:
both keep their initial value 0 forever. -/

/-- Claim C8, counterexample: one passthrough-producing request (hanging
fixture, budget 35, passthrough succeeds) leaves
`getMetrics().passthroughCount` at 0 — not incremented — and
`averageResponseTime` at 0 despite an observed latency of 35ms. -/
theorem claim_C8_counterexample :
    (executeFixtureRequest (PMState.init (α := Nat) defaultPerformanceConfig 0)
        ⟨"s", 1⟩ .hangs (.ok 5) ⟨"/api/x", none, none, none, none⟩ 0).1 =
      .ok { result := 5, fromCache := false, timedOut := true,
            source := .passthrough, latencyMs := 35 } ∧
    (getMetrics (executeFixtureRequest (PMState.init (α := Nat) defaultPerformanceConfig 0)
        ⟨"s", 1⟩ .hangs (.ok 5) ⟨"/api/x", none, none, none, none⟩ 0).2
      100).passthroughCount = 0 ∧
    (getMetrics (executeFixtureRequest (PMState.init (α := Nat) defaultPerformanceConfig 0)
        ⟨"s", 1⟩ .hangs (.ok 5) ⟨"/api/x", none, none, none, none⟩ 0).2
      100).averageResponseTime = 0 ∧
    ¬ ((getMetrics (executeFixtureRequest (PMState.init (α := Nat) defaultPerformanceConfig 0)
        ⟨"s", 1⟩ .hangs (.ok 5) ⟨"/api/x", none, none, none, none⟩ 0).2
      100).passthroughCount =
      (getMetrics (PMState.init (α := Nat) defaultPerformanceConfig 0)
        100).passthroughCount + 1) := by
  refine ⟨?_, ?_, ?_, ?_⟩ <;> decide

theorem cache_if_update_metrics_preserved {α : Type} (b : Prop) [Decidable b] (n : Nat)
    (c : ResponseCache α) :
    ((if b then ResponseCache.updateMetricsTimeoutHits n c else c).metrics.cacheHits =
        c.metrics.cacheHits) ∧
    ((if b then ResponseCache.updateMetricsTimeoutHits n c else c).metrics.cacheMisses =
        c.metrics.cacheMisses) ∧
    ((if b then ResponseCache.updateMetricsTimeoutHits n c else c).metrics.passthroughCount =
        c.metrics.passthroughCount) ∧
    ((if b then ResponseCache.updateMetricsTimeoutHits n c else c).metrics.averageResponseTime =
        c.metrics.averageResponseTime) := by
  by_cases h : b
  · rw [if_pos h]
    exact ⟨rfl, rfl, rfl, rfl⟩
  · rw [if_neg h]
    exact ⟨rfl, rfl, rfl, rfl⟩

theorem cache_if_set_metrics {α : Type} (b : Prop) [Decidable b] (ck : CacheKey)
    (data : α) (ttlMs : Option Nat) (tw : Nat) (mid : ResponseCache α) :
    (if b then ResponseCache.set ck data ttlMs tw mid else mid).metrics = mid.metrics := by
  by_cases h : b
  · rw [if_pos h]
    exact ResponseCache.set_metrics ck data ttlMs tw mid
  · rw [if_neg h]

/-- Claim C8 as amended: a completed `executeFixtureRequest` increments
`cacheHits` on a hit, `cacheMisses` on a consulted miss, and `timeoutHits`
exactly when the outcome timed out — but `passthroughCount` is never
incremented and no latency is folded into `averageResponseTime`; both are
reported by `getMetrics` unchanged (0 as initialized, absent external
writes). -/
theorem claim_C8_amended {α : Type} (pm : PMState α) (scenario : Scenario)
    (fixture : PrimaryBehavior α) (passthrough : Except String α)
    (opts : ExecOptions) (now t : Nat) (out : ExecResult α)
    (hok : (executeFixtureRequest pm scenario fixture passthrough opts now).1 = .ok out) :
    (out.fromCache = true →
      (getMetrics (executeFixtureRequest pm scenario fixture passthrough opts now).2
          t).cacheHits = (getMetrics pm t).cacheHits + 1 ∧
      (getMetrics (executeFixtureRequest pm scenario fixture passthrough opts now).2
          t).cacheMisses = (getMetrics pm t).cacheMisses) ∧
    (out.fromCache = false → cacheEnabledForCall pm.config opts = true →
      (getMetrics (executeFixtureRequest pm scenario fixture passthrough opts now).2
          t).cacheMisses = (getMetrics pm t).cacheMisses + 1 ∧
      (getMetrics (executeFixtureRequest pm scenario fixture passthrough opts now).2
          t).cacheHits = (getMetrics pm t).cacheHits) ∧
    ((getMetrics (executeFixtureRequest pm scenario fixture passthrough opts now).2
        t).timeoutHits =
      (getMetrics pm t).timeoutHits + (if out.timedOut = true then 1 else 0)) ∧
    ((getMetrics (executeFixtureRequest pm scenario fixture passthrough opts now).2
        t).passthroughCount = (getMetrics pm t).passthroughCount) ∧
    ((getMetrics (executeFixtureRequest pm scenario fixture passthrough opts now).2
        t).averageResponseTime = (getMetrics pm t).averageResponseTime) := by
  cases hphase : (efrCachePhase pm opts (efrCacheKey scenario opts) now).1 with
  | some v =>
    have hen : cacheEnabledForCall pm.config opts = true := by
      by_contra hen
      unfold efrCachePhase at hphase
      rw [if_neg hen] at hphase
      simp at hphase
    have hg : (ResponseCache.get (efrCacheKey scenario opts) now pm.cache).1 = some v := by
      have hp := hphase
      unfold efrCachePhase at hp
      rwa [if_pos hen] at hp
    have hmid : (efrCachePhase pm opts (efrCacheKey scenario opts) now).2 =
        (ResponseCache.get (efrCacheKey scenario opts) now pm.cache).2 := by
      unfold efrCachePhase
      rw [if_pos hen]
    have heq := executeFixtureRequest_hit pm scenario fixture passthrough opts now v hphase
    have hout2 := (congrArg Prod.fst heq).symm.trans hok
    injection hout2 with hout2
    subst hout2
    have hpost := congrArg Prod.snd heq
    have hm := ResponseCache.get_metrics_of_some hg
    refine ⟨fun _ => ⟨?_, ?_⟩, fun hfc => by simp at hfc, ?_, ?_, ?_⟩
    · rw [hpost]
      show (efrCachePhase pm opts (efrCacheKey scenario opts) now).2.metrics.cacheHits =
        pm.cache.metrics.cacheHits + 1
      rw [hmid, hm]
    · rw [hpost]
      show (efrCachePhase pm opts (efrCacheKey scenario opts) now).2.metrics.cacheMisses =
        pm.cache.metrics.cacheMisses
      rw [hmid, hm]
    · rw [hpost]
      show pm.timeoutMgr.timeoutHits =
        pm.timeoutMgr.timeoutHits + (if (false : Bool) = true then 1 else 0)
      simp
    · rw [hpost]
      show (efrCachePhase pm opts
          (efrCacheKey scenario opts) now).2.metrics.passthroughCount =
        pm.cache.metrics.passthroughCount
      rw [hmid, hm]
    · rw [hpost]
      show (efrCachePhase pm opts
          (efrCacheKey scenario opts) now).2.metrics.averageResponseTime =
        pm.cache.metrics.averageResponseTime
      rw [hmid, hm]
  | none =>
    cases hout : (fetchWithTimeout pm.config.timeout pm.timeoutMgr fixture
        (some passthrough)).1.out with
    | error e =>
      rw [executeFixtureRequest_fetchErr pm scenario fixture passthrough opts now e
        hphase hout] at hok
      simp at hok
    | ok o =>
      have heq := executeFixtureRequest_fetchOk pm scenario fixture passthrough opts now o
        hphase hout
      have hout2 := (congrArg Prod.fst heq).symm.trans hok
      injection hout2 with hout2
      subst hout2
      have hpost := congrArg Prod.snd heq
      have hpres := cache_if_update_metrics_preserved
        (o.timedOut = true)
        ((ResponseCache.getStats
          (if pm.config.cache.enabled ∧ o.source = FetchSource.fixture ∧ o.timedOut = false ∧
              opts.enableCache ≠ some false
           then ResponseCache.set (efrCacheKey scenario opts) o.result opts.ttlMs
             (now + (fetchWithTimeout pm.config.timeout pm.timeoutMgr fixture
               (some passthrough)).1.durationMs)
             (efrCachePhase pm opts (efrCacheKey scenario opts) now).2
           else (efrCachePhase pm opts (efrCacheKey scenario opts) now).2)).timeoutHits + 1)
        (if pm.config.cache.enabled ∧ o.source = FetchSource.fixture ∧ o.timedOut = false ∧
            opts.enableCache ≠ some false
         then ResponseCache.set (efrCacheKey scenario opts) o.result opts.ttlMs
           (now + (fetchWithTimeout pm.config.timeout pm.timeoutMgr fixture
             (some passthrough)).1.durationMs)
           (efrCachePhase pm opts (efrCacheKey scenario opts) now).2
         else (efrCachePhase pm opts (efrCacheKey scenario opts) now).2)
      have hsetm := cache_if_set_metrics
        (pm.config.cache.enabled ∧ o.source = FetchSource.fixture ∧ o.timedOut = false ∧
          opts.enableCache ≠ some false)
        (efrCacheKey scenario opts) o.result opts.ttlMs
        (now + (fetchWithTimeout pm.config.timeout pm.timeoutMgr fixture
          (some passthrough)).1.durationMs)
        (efrCachePhase pm opts (efrCacheKey scenario opts) now).2
      have hmidPA : (efrCachePhase pm opts
            (efrCacheKey scenario opts) now).2.metrics.passthroughCount =
          pm.cache.metrics.passthroughCount ∧
          (efrCachePhase pm opts
            (efrCacheKey scenario opts) now).2.metrics.averageResponseTime =
          pm.cache.metrics.averageResponseTime := by
        by_cases hen : cacheEnabledForCall pm.config opts = true
        · have hg : (ResponseCache.get (efrCacheKey scenario opts) now pm.cache).1 = none := by
            have hp := hphase
            unfold efrCachePhase at hp
            rwa [if_pos hen] at hp
          constructor
          · unfold efrCachePhase
            rw [if_pos hen, ResponseCache.get_metrics_of_none hg]
          · unfold efrCachePhase
            rw [if_pos hen, ResponseCache.get_metrics_of_none hg]
        · constructor
          · unfold efrCachePhase
            rw [if_neg hen]
          · unfold efrCachePhase
            rw [if_neg hen]
      refine ⟨fun hfc => by simp at hfc, fun _ hen => ⟨?_, ?_⟩, ?_, ?_, ?_⟩
      · rw [hpost]
        have hg : (ResponseCache.get (efrCacheKey scenario opts) now pm.cache).1 = none := by
          have hp := hphase
          unfold efrCachePhase at hp
          rwa [if_pos hen] at hp
        have hmidM : (efrCachePhase pm opts (efrCacheKey scenario opts) now).2.metrics =
            { pm.cache.metrics with cacheMisses := pm.cache.metrics.cacheMisses + 1 } := by
          unfold efrCachePhase
          rw [if_pos hen]
          exact ResponseCache.get_metrics_of_none hg
        exact hpres.2.1.trans
          ((congrArg PerformanceMetrics.cacheMisses hsetm).trans (by rw [hmidM]; rfl))
      · rw [hpost]
        have hg : (ResponseCache.get (efrCacheKey scenario opts) now pm.cache).1 = none := by
          have hp := hphase
          unfold efrCachePhase at hp
          rwa [if_pos hen] at hp
        have hmidM : (efrCachePhase pm opts (efrCacheKey scenario opts) now).2.metrics =
            { pm.cache.metrics with cacheMisses := pm.cache.metrics.cacheMisses + 1 } := by
          unfold efrCachePhase
          rw [if_pos hen]
          exact ResponseCache.get_metrics_of_none hg
        exact hpres.1.trans
          ((congrArg PerformanceMetrics.cacheHits hsetm).trans (by rw [hmidM]; rfl))
      · rw [hpost]
        show pm.timeoutMgr.timeoutHits +
            (if (fetchCore pm.config.timeout fixture (some passthrough)).timeoutCounted = true
              then 1 else 0) =
          pm.timeoutMgr.timeoutHits + (if o.timedOut = true then 1 else 0)
        rw [fetchCore_ok_timeoutCounted pm.config.timeout fixture (some passthrough) o hout]
      · rw [hpost]
        exact hpres.2.2.1.trans
          ((congrArg PerformanceMetrics.passthroughCount hsetm).trans hmidPA.1)
      · rw [hpost]
        exact hpres.2.2.2.trans
          ((congrArg PerformanceMetrics.averageResponseTime hsetm).trans hmidPA.2)


/-- Witness for the amended claim C8: the timed-out run increments the
reported `timeoutHits` by exactly one. -/
theorem claim_C8_witness :
    (getMetrics (executeFixtureRequest (PMState.init (α := Nat) defaultPerformanceConfig 0)
        ⟨"s", 1⟩ .hangs (.ok 5) ⟨"/api/x", none, none, none, none⟩ 0).2 100).timeoutHits =
      (getMetrics (PMState.init (α := Nat) defaultPerformanceConfig 0) 100).timeoutHits + 1 :=
  (claim_C8_amended (PMState.init defaultPerformanceConfig 0) ⟨"s", 1⟩ .hangs (.ok 5)
      ⟨"/api/x", none, none, none, none⟩ 0 100
      { result := 5, fromCache := false, timedOut := true,
        source := .passthrough, latencyMs := 35 }
      (by decide)).2.2.1

end Perf
